import Mathlib

/-!
# BTHeater 1.0 (`main.c`): scheduler, output effects and duration parser

A shallow embedding of the firmware's slot scheduler (`ISR(TIMER1_COMPA_vect)`),
of the slot-creating parts of `process_timeout` / `process_interval`, of the
output effect applied by the tick handler and by `process_action`, and of the
duration parser (`slice`, `strlen`, `atoi`, `parse_timestamp`).

Machine integers are natural numbers with explicit reduction: `unsigned int`
and `unsigned short` are 16 bits wide on the AVR target (`% 65536`),
`unsigned char` is 8 bits wide (`% 256`).
-/

namespace BTHeater

/-! ## Constants of `main.c` -/

def MAX_LINE_LEN : Nat := 15

/-- Bit numbers of port D as named by avr-libc (`<avr/io.h>`): `PORTDn` is bit `n`. -/
def PORTD2 : Nat := 2
def PORTD3 : Nat := 3
def PORTD5 : Nat := 5
def PORTD6 : Nat := 6

def PORT_L1 : Nat := PORTD2
def PORT_L2 : Nat := PORTD5
def PORT_R1 : Nat := PORTD3
def PORT_R2 : Nat := PORTD6

def CMD_ON : Char := '1'
def CMD_OFF : Char := '0'
def CMD_TOGGLE : Char := 'g'
def SOCK_LEFT : Char := 'l'
def SOCK_RIGHT : Char := 'r'
def SOCK_ALL : Char := 'a'

def SLOT_COUNT : Nat := 9
def SLOT_FLAG_SET : Nat := 1
def SLOT_FLAG_L : Nat := 2
def SLOT_FLAG_R : Nat := 4
def SLOT_FLAG_INT : Nat := 8
def SLOT_FLAG_ON : Nat := 16
def SLOT_FLAG_TOGGLE : Nat := 32

/-! ## Data model -/

/-- The C `struct slot`: `flags` (unsigned char), `ts` (timeout timestamp) and
`iv` (interval), both `unsigned int`. -/
structure Slot where
  flags : Nat
  ts : Nat
  iv : Nat
deriving DecidableEq, Repr

/-- The shared state touched by the tick handler and by the commands: the
clock `cts`, the table `slots` and the output register `PORTD`. -/
structure State where
  cts : Nat
  slots : List Slot
  PORTD : Nat
deriving DecidableEq, Repr

/-! ## Machine arithmetic -/

/-- Subtraction of two `unsigned int` values (16 bits, wrapping). -/
def sub16 (a b : Nat) : Nat := (a + 65536 - b % 65536) % 65536

/-- Bitwise complement `~x` of an `int` operand (16 bits), as a bit pattern. -/
def not16 (x : Nat) : Nat := 65535 ^^^ x

/-- Mask `(1 << PORT_L1) | (1 << PORT_L2)`. -/
def MASK_L : Nat := (1 <<< PORT_L1) ||| (1 <<< PORT_L2)

/-- Mask `(1 << PORT_R1) | (1 << PORT_R2)`. -/
def MASK_R : Nat := (1 <<< PORT_R1) ||| (1 <<< PORT_R2)

/-! ## Output effect -/

/-- Lines 266-284 of the tick handler: the new value of `PORTD` when the slot
with these `flags` fires. `portd` and `ds` are `unsigned char`. -/
def slot_effect (flags : Nat) (PORTD : Nat) : Nat :=
  let portd := PORTD
  let org_portd := portd
  let ds := 0
  let portd := if flags &&& SLOT_FLAG_L ≠ 0 then (portd &&& not16 MASK_L) % 256 else portd
  let ds := if flags &&& SLOT_FLAG_L ≠ 0 then (ds ||| MASK_L) % 256 else ds
  let portd := if flags &&& SLOT_FLAG_R ≠ 0 then (portd &&& not16 MASK_R) % 256 else portd
  let ds := if flags &&& SLOT_FLAG_R ≠ 0 then (ds ||| MASK_R) % 256 else ds
  if flags &&& SLOT_FLAG_TOGGLE ≠ 0 then (org_portd ^^^ ds) % 256
  else if flags &&& SLOT_FLAG_ON ≠ 0 then (portd ||| ds) % 256
  else portd

/-- Lines 677-697 of `process_action`: the new value of `PORTD` for the
immediate command `cmd` on socket `sock`. -/
def process_action (cmd sock : Char) (PORTD : Nat) : Nat :=
  let portd := PORTD
  let org_portd := portd
  let ds := 0
  let portd := if sock = SOCK_ALL ∨ sock = SOCK_LEFT then (portd &&& not16 MASK_L) % 256 else portd
  let ds := if sock = SOCK_ALL ∨ sock = SOCK_LEFT then (ds ||| MASK_L) % 256 else ds
  let portd := if sock = SOCK_ALL ∨ sock = SOCK_RIGHT then (portd &&& not16 MASK_R) % 256 else portd
  let ds := if sock = SOCK_ALL ∨ sock = SOCK_RIGHT then (ds ||| MASK_R) % 256 else ds
  if cmd = CMD_ON then (portd ||| ds) % 256
  else if cmd = CMD_TOGGLE then (org_portd ^^^ ds) % 256
  else portd

/-! ## Tick handler -/

/-- One iteration of the `for` loop of `ISR(TIMER1_COMPA_vect)` (lines 252-285)
on slot `s`, with `cts` already advanced. Returns the slot afterwards, the
value of `PORTD` afterwards, and whether control reached the effect code of
lines 266-284 (the slot fired). The remainder `% s.iv` is undefined in C for
`iv = 0` (there the Lean `%` yields the dividend); the statements on recurring
slots assume a positive interval. -/
def ISR_body (cts : Nat) (s : Slot) (PORTD : Nat) : Slot × Nat × Bool :=
  if s.flags &&& SLOT_FLAG_SET = 0 then (s, PORTD, false)
  else if s.flags &&& SLOT_FLAG_INT ≠ 0 then
    if s.ts > cts ∨ (s.ts < cts ∧ (sub16 cts s.ts) % s.iv ≠ 0) then (s, PORTD, false)
    else (s, slot_effect s.flags PORTD, true)
  else
    let s1 : Slot := if s.ts < cts then { s with flags := 0 } else s
    if s1.ts ≠ cts then (s1, PORTD, false)
    else (s1, slot_effect s1.flags PORTD, true)

/-- The `for` loop of the tick handler over the table, lowest index first.
Returns the table, `PORTD`, and for every slot whether it fired. -/
def ISR_loop (cts : Nat) : List Slot → Nat → List Slot × Nat × List Bool
  | [], PORTD => ([], PORTD, [])
  | s :: rest, PORTD =>
    let r := ISR_body cts s PORTD
    let r2 := ISR_loop cts rest r.2.1
    (r.1 :: r2.1, r2.2.1, r.2.2 :: r2.2.2)

/-- The tick handler `ISR(TIMER1_COMPA_vect)`: `cts++` (16 bits) and the scan
of the table. The second component lists, per slot, whether it fired. -/
def ISR (st : State) : State × List Bool :=
  let cts := (st.cts + 1) % 65536
  let r := ISR_loop cts st.slots st.PORTD
  ({ cts := cts, slots := r.1, PORTD := r.2.1 }, r.2.2)

/-- The state after `n` consecutive runs of the tick handler (no command in
between). -/
def run_ticks : Nat → State → State
  | 0, st => st
  | n + 1, st => run_ticks n (ISR st).1

/-- Whether slot `i` fires in the `n`-th run of the tick handler counted from
state `st` (`n = 1` is the next run). -/
def fires_at (st : State) (n : Nat) (i : Nat) : Bool :=
  match n with
  | 0 => false
  | k + 1 => (ISR (run_ticks k st)).2.getD i false

/-- Whether slot `i` of the table is occupied (`flags & SLOT_FLAG_SET`). -/
def occupied (st : State) (i : Nat) : Bool :=
  match st.slots.get? i with
  | some s => decide (s.flags &&& SLOT_FLAG_SET ≠ 0)
  | none => false

/-! ## Slot creation -/

/-- The action part of the `flags` expression (lines 483-484 and 553-554). -/
def scmd_flags (scmd : Char) : Nat :=
  if scmd = CMD_TOGGLE then SLOT_FLAG_TOGGLE
  else (if scmd = CMD_ON then SLOT_FLAG_ON else 0)

/-- The socket part of the `flags` expression (lines 485-486 and 555-556). -/
def sock_flags (sock : Char) : Nat :=
  if sock = SOCK_ALL then (SLOT_FLAG_L ||| SLOT_FLAG_R)
  else (if sock = SOCK_LEFT then SLOT_FLAG_L else SLOT_FLAG_R)

/-- The `flags` value stored by `process_timeout` (lines 482-486). -/
def timeout_flags (scmd sock : Char) : Nat :=
  SLOT_FLAG_SET ||| scmd_flags scmd ||| sock_flags sock

/-- The `flags` value stored by `process_interval` (lines 552-556). -/
def interval_flags (scmd sock : Char) : Nat :=
  SLOT_FLAG_SET ||| SLOT_FLAG_INT ||| scmd_flags scmd ||| sock_flags sock

/-- The allocation loop of `process_timeout` (lines 478-493) from index `i` on:
the first slot without `SLOT_FLAG_SET` gets the flags and `ts = cts + sspan`
(its `iv` is left as it was). Returns the table and the index used, or `none`
when no slot is free. -/
def timeout_loop (scmd sock : Char) (sspan cts : Nat) : List Slot → Nat → Option (List Slot × Nat)
  | [], _ => none
  | s :: rest, i =>
    if s.flags &&& SLOT_FLAG_SET = 0 then
      some ({ s with flags := timeout_flags scmd sock, ts := (cts + sspan) % 65536 } :: rest, i)
    else
      match timeout_loop scmd sock sspan cts rest (i + 1) with
      | some r => some (s :: r.1, r.2)
      | none => none

/-- The part of `process_timeout` after the dialog (lines 477-498). -/
def process_timeout (scmd sock : Char) (sspan : Nat) (st : State) : Option (State × Nat) :=
  match timeout_loop scmd sock sspan st.cts st.slots 0 with
  | some r => some ({ st with slots := r.1 }, r.2)
  | none => none

/-- The allocation loop of `process_interval` (lines 548-564). `sspan` is
`none` when the start answer was left blank (`sset = 0`). -/
def interval_loop (scmd sock : Char) (ispan : Nat) (sspan : Option Nat) (cts : Nat) :
    List Slot → Nat → Option (List Slot × Nat)
  | [], _ => none
  | s :: rest, i =>
    if s.flags &&& SLOT_FLAG_SET = 0 then
      some ({ flags := interval_flags scmd sock,
              ts := (cts + (match sspan with | some x => x | none => ispan)) % 65536,
              iv := ispan } :: rest, i)
    else
      match interval_loop scmd sock ispan sspan cts rest (i + 1) with
      | some r => some (s :: r.1, r.2)
      | none => none

/-- The part of `process_interval` after the dialog (lines 547-569). -/
def process_interval (scmd sock : Char) (ispan : Nat) (sspan : Option Nat) (st : State) :
    Option (State × Nat) :=
  match interval_loop scmd sock ispan sspan st.cts st.slots 0 with
  | some r => some ({ st with slots := r.1 }, r.2)
  | none => none

/-! ## Output effect as the specification words it -/

/-- Whether pin `i` of port D belongs to a targeted channel: Left drives the
pins `PORT_L1`, `PORT_L2`, Right drives `PORT_R1`, `PORT_R2`. -/
def spec_targeted (left right : Bool) (i : Nat) : Bool :=
  (left && (i == PORT_L1 || i == PORT_L2)) || (right && (i == PORT_R1 || i == PORT_R2))

/-- The value of a pin after an effect: a targeted pin is inverted by Toggle,
set by TurnOn and cleared by TurnOff; an untargeted pin keeps its value. -/
def spec_pin_after (toggle turn_on targeted old : Bool) : Bool :=
  if targeted then (if toggle then !old else turn_on) else old

/-! ## Duration parser -/

/-- The string terminator. -/
def NUL : Char := Char.ofNat 0

/-- The character under a `char const *`. A pointer into a NUL-terminated string
is modelled by the list of characters from the pointer on; at the end of the
list the pointer is on the terminator. -/
def cur (p : List Char) : Char := p.headD NUL

/-- The function `strlen`: the number of characters before the terminator
(`unsigned short`). -/
def strlen : List Char → Nat
  | [] => 0
  | c :: cs => if c = NUL then 0 else (strlen cs + 1) % 65536

/-- The copy loop of `slice` (line 346-347) with `n = max_len - l` iterations
left: returns the characters copied to `buf` and the pointer `str` after the
loop. -/
def slice_loop (stop : Char) : Nat → List Char → List Char × List Char
  | 0, p => ([], p)
  | n + 1, p =>
    if cur p ≠ NUL ∧ cur p ≠ stop then
      let r := slice_loop stop n p.tail
      (cur p :: r.1, r.2)
    else ([], p)

/-- The function `slice` (lines 340-350): the string written to `buf` and the
returned index `start + l + (*str == stop ? 1 : 0)` (`unsigned short`). -/
def slice (str : List Char) (start : Nat) (stop : Char) (max_len : Nat) : List Char × Nat :=
  let r := slice_loop stop max_len (str.drop start)
  (r.1, (start + r.1.length + (if cur r.2 = stop then 1 else 0)) % 65536)

/-- The function `atoi` (lines 406-416) with accumulator `o` (`unsigned int`). -/
def atoi_loop : List Char → Nat → Nat
  | [], o => o
  | c :: cs, o =>
    if c = NUL then o
    else if '0' ≤ c ∧ c ≤ '9' then atoi_loop cs ((o * 10 + (c.toNat - '0'.toNat)) % 65536)
    else atoi_loop cs o

/-- The function `atoi`. -/
def atoi (str : List Char) : Nat := atoi_loop str 0

/-- Entry `dbuf[i]` of the 3-entry array (the model never reads another index). -/
def dbuf_at (dbuf : List (List Char)) (i : Nat) : List Char := dbuf.getD i []

/-- The scan `while (strlen(dbuf[i]) == 0) i++;` (lines 426-428) over the entries
of the array, `n` entries left from index `i` on. The result is the first index
whose entry is not empty, or 3 when all three entries are empty; from there the
C loop goes on reading `dbuf[3]`, which the array does not have. -/
def scan_dbuf (dbuf : List (List Char)) : Nat → Nat → Nat
  | 0, i => i
  | n + 1, i => if strlen (dbuf_at dbuf i) = 0 then scan_dbuf dbuf n (i + 1) else i

/-- Lines 426-441 of `parse_timestamp` on the filled array `dbuf`: `some ts` when
the function returns 1 with `*ts = ts`, `none` when the scan leaves the array
(all three fields empty; the only `return 0` lies behind that scan, at `i > 2`). -/
def timestamp_of_dbuf (dbuf : List (List Char)) : Option Nat :=
  let i := scan_dbuf dbuf 3 0
  if i > 2 then none
  else
    let ts := atoi (dbuf_at dbuf i)
    let i := i + 1
    if i > 2 then some ts
    else
      let ts := (ts + (atoi (dbuf_at dbuf i) * 60) % 65536) % 65536
      let i := i + 1
      if i > 2 then some ts
      else
        let ts := (ts + (atoi (dbuf_at dbuf i) * 3600) % 65536) % 65536
        some ts

/-- The function `parse_timestamp` (lines 418-442): the three calls of `slice`
fill `dbuf[2]`, `dbuf[1]`, `dbuf[0]` in this order, then the fields are summed. -/
def parse_timestamp (buf : List Char) : Option Nat :=
  let s2 := slice buf 0 ':' 2
  let s1 := slice buf s2.2 ':' 2
  let s0 := slice buf s1.2 ':' 2
  timestamp_of_dbuf [s0.1, s1.1, s2.1]

/-! ## Duration grammar as the specification words it -/

/-- The fields of a duration joined by colons. -/
def join_fields : List (List Char) → List Char
  | [] => []
  | [f] => f
  | f :: g :: rest => f ++ ':' :: join_fields (g :: rest)

/-- The base-10 number written by a list of digit characters. -/
def spec_decimal (f : List Char) : Nat :=
  f.foldl (fun acc c => 10 * acc + (c.toNat - '0'.toNat)) 0

/-- The lenient value of a field: the base-10 number formed by its digit
characters, the other characters being skipped (0 when there is no digit). -/
def spec_field_value (f : List Char) : Nat :=
  spec_decimal (f.filter Char.isDigit)

/-- Fields read positionally from the right: the last is seconds, the one before
minutes, the one before hours; missing fields count as 0; the sum is a 16-bit
tick count. -/
def spec_ticks (value : List Char → Nat) (fields : List (List Char)) : Nat :=
  (value (fields.reverse.getD 0 []) + 60 * value (fields.reverse.getD 1 [])
    + 3600 * value (fields.reverse.getD 2 [])) % 65536

/-- The fields left after the empty fields at the end are dropped. -/
def drop_trailing_empty (fields : List (List Char)) : List (List Char) :=
  fields.rdropWhile List.isEmpty

/-- A character that can stand inside a field: neither the terminator nor a colon. -/
def field_char (c : Char) : Prop := c ≠ NUL ∧ c ≠ ':'

/-- A field as `slice` can store it: at most 2 characters, none of them a colon
or the terminator. -/
def short_field (f : List Char) : Prop := f.length ≤ 2 ∧ ∀ c ∈ f, field_char c

/-- A field of 1 or 2 decimal digits. -/
def digit_field (f : List Char) : Prop :=
  1 ≤ f.length ∧ f.length ≤ 2 ∧ ∀ c ∈ f, c.isDigit = true

/-- The pointer view of one call `slice(buf, start, ':', dbuf[i], 2)`: the field
copied and the rest of the string from the returned index on. -/
def next_field (p : List Char) : List Char × List Char :=
  let r := slice_loop ':' 2 p
  (r.1, if cur r.2 = ':' then r.2.tail else r.2)

/-! ## Replies of the scheduling commands -/

/-- The byte handed to `USART_send('1' + i)` (an `unsigned char`). -/
def slot_digit (i : Nat) : Char := Char.ofNat (('1'.toNat + i) % 256)

/-- The reply line of `process_timeout` when no slot is free (line 498). -/
def REPLY_TIMEOUT_FULL : List Char :=
  "FULL, see ".toList ++ [Char.ofNat 39, 'C', Char.ofNat 39] ++ " cmd.\r\n".toList

/-- The reply line of `process_interval` when no slot is free (line 569). -/
def REPLY_INTERVAL_FULL : List Char :=
  "ALL SLOTS FULL. Use ".toList ++ [Char.ofNat 39, 'C', Char.ofNat 39]
    ++ " command to free one up.\r\n".toList

/-- The reply `"OK "`, `'1' + i`, `"\r\n"` of lines 488-490 and 559-561. -/
def reply_ok_slot (i : Nat) : List Char :=
  "OK ".toList ++ [slot_digit i] ++ "\r\n".toList

/-- The part of `process_timeout` after the dialog, with the bytes it sends: the
state afterwards (unchanged when no slot is free) and the reply. -/
def timeout_command (scmd sock : Char) (sspan : Nat) (st : State) : State × List Char :=
  match process_timeout scmd sock sspan st with
  | some r => (r.1, reply_ok_slot r.2)
  | none => (st, REPLY_TIMEOUT_FULL)

/-- The part of `process_interval` after the dialog, with the bytes it sends. -/
def interval_command (scmd sock : Char) (ispan : Nat) (sspan : Option Nat) (st : State) :
    State × List Char :=
  match process_interval scmd sock ispan sspan st with
  | some r => (r.1, reply_ok_slot r.2)
  | none => (st, REPLY_INTERVAL_FULL)

/-- The answer test of the duration prompts (lines 473 and 530): the line `buf`
of length `blen` ends the `do ... while` loop when `blen` is 1 to 8 and
`parse_timestamp` returns 1; the result is the parsed span. -/
def duration_answer (buf : List Char) : Option Nat :=
  if buf.length < 1 ∨ buf.length > 8 then none else parse_timestamp buf

/-! ## Clear command -/

/-- The answer test of `process_clear` (lines 646-647): whether the line ends the
`do ... while` loop. -/
def clear_accepts (buf : List Char) : Bool :=
  !(decide (buf.length ≠ 1)
    || ((decide (cur buf < '0') || decide (cur buf > '9')) && decide (cur buf ≠ 'a')))

/-- The index `slotn - '1'` of line 657 (`int` arithmetic on an `unsigned char`). -/
def clear_index (slotn : Char) : Int := (slotn.toNat : Int) - ('1'.toNat : Int)

/-- The table with `flags = 0` written to entry `i`. -/
def clear_at : List Slot → Nat → List Slot
  | [], _ => []
  | s :: rest, 0 => { s with flags := 0 } :: rest
  | s :: rest, i + 1 => s :: clear_at rest i

/-- Lines 648-659 of `process_clear` for the accepted answer `slotn`: the table
afterwards, or `none` when the write `slots[slotn - '1'].flags = 0` falls
outside the table. -/
def process_clear (slotn : Char) (st : State) : Option State :=
  if slotn = SOCK_ALL then
    some { st with slots := st.slots.map (fun s => { s with flags := 0 }) }
  else if 0 ≤ clear_index slotn ∧ clear_index slotn < (st.slots.length : Int) then
    some { st with slots := clear_at st.slots (clear_index slotn).toNat }
  else none

/-! ## List command -/

/-- The hours, minutes and seconds computed by `print_timestamp` (line 355),
each an `unsigned char`. -/
def print_timestamp_hms (ts : Nat) : Nat × Nat × Nat :=
  ((ts / 3600) % 256, ((ts % 3600) / 60) % 256, (ts % 60) % 256)

/-- The function `print_timestamp` (lines 352-365): the 8 characters written to
`buf`. -/
def print_timestamp (ts : Nat) : List Char :=
  let hr := (print_timestamp_hms ts).1
  let min := (print_timestamp_hms ts).2.1
  let sec := (print_timestamp_hms ts).2.2
  [Char.ofNat ((hr / 10 + '0'.toNat) % 256), Char.ofNat ((hr % 10 + '0'.toNat) % 256), ':',
   Char.ofNat ((min / 10 + '0'.toNat) % 256), Char.ofNat ((min % 10 + '0'.toNat) % 256), ':',
   Char.ofNat ((sec / 10 + '0'.toNat) % 256), Char.ofNat ((sec % 10 + '0'.toNat) % 256)]

/-- The "next in" argument of `print_list` for a recurring slot (lines 392-393):
`s->ts > cts ? s->ts - cts : ((s->ts - cts) % s->iv)` on `unsigned int`. -/
def next_in (s : Slot) (cts : Nat) : Nat :=
  if s.ts > cts then sub16 s.ts cts else (sub16 s.ts cts) % s.iv

/-! ## Default command -/

/-- Bit numbers of the input register of port D (avr-libc): `PINDn` is bit `n`. -/
def PIND2 : Nat := 2
def PIND3 : Nat := 3
def PIN_L1 : Nat := PIND2
def PIN_R1 : Nat := PIND3
def EEPROM_DEFAULT_L : Nat := 0
def EEPROM_DEFAULT_R : Nat := 1

/-- The answer test of the state prompt of `process_default` (line 592):
`IS_SCMD2_VALID(buf[0])` or `buf[0] == 'c'`, on a one-character line. -/
def default_accepts (buf : List Char) : Bool :=
  !(decide (buf.length ≠ 1)
    || (!(decide (cur buf = CMD_ON) || decide (cur buf = CMD_OFF)) && decide (cur buf ≠ 'c')))

/-- Lines 597-609 of `process_default`: the byte `ds` for the state answer `scmd`
and the pin register value `pind`. In C `>>` binds tighter than `&`, so
`pind & (1 << PIN_L1) >> PIN_L1` is `pind & ((1 << PIN_L1) >> PIN_L1)`. -/
def default_ds (scmd : Char) (pind : Nat) : Nat :=
  if scmd = 'C' then
    (((pind &&& ((1 <<< PIN_L1) >>> PIN_L1)) <<< EEPROM_DEFAULT_L)
      ||| ((pind &&& ((1 <<< PIN_R1) >>> PIN_R1)) <<< EEPROM_DEFAULT_R)) % 256
  else if scmd = '1' then (1 <<< EEPROM_DEFAULT_L) ||| (1 <<< EEPROM_DEFAULT_R)
  else 0

/-- Lines 597-629 of `process_default`: the content of the persisted default
byte afterwards, from the answers `sock`, `scmd`, the pin register `pind` and
the byte `eeprom` stored before. -/
def process_default (sock scmd : Char) (pind eeprom : Nat) : Nat :=
  let ds := default_ds scmd pind
  let old := eeprom
  let new :=
    if sock = SOCK_ALL then ds
    else if sock = SOCK_LEFT then
      ((eeprom &&& not16 (1 <<< EEPROM_DEFAULT_L)) ||| (ds &&& (1 <<< EEPROM_DEFAULT_L))) % 256
    else
      ((eeprom &&& not16 (1 <<< EEPROM_DEFAULT_R)) ||| (ds &&& (1 <<< EEPROM_DEFAULT_R))) % 256
  if old ≠ new then new else eeprom

/-! ## Line reader -/

/-- The case folding of line 199-200: `'A'..'Z'` become `c - 'A' + 'a'`. -/
def to_lower (c : Char) : Char :=
  if 'A' ≤ c ∧ c ≤ 'Z' then Char.ofNat (c.toNat - 'A'.toNat + 'a'.toNat) else c

/-- The loop of `read_line` (lines 198-203) with `n = max_len - i` iterations
left, the character `c` in hand and the bytes `input` still to be delivered by
`USART_recv`. Returns the characters stored in `buf`, the character in hand
when the loop ends, and the rest of the input; `none` when `USART_recv` waits
for a byte that never comes. -/
def read_loop : Nat → Char → List Char → Option (List Char × Char × List Char)
  | 0, c, input => some ([], c, input)
  | n + 1, c, input =>
    if c ≠ '\r' ∧ c ≠ '\n' then
      match input with
      | [] => none
      | c2 :: rest =>
        match read_loop n c2 rest with
        | some r => some (to_lower c :: r.1, r.2.1, r.2.2)
        | none => none
    else some ([], c, input)

/-- The function `read_line` (lines 190-207) on the static `lastc` and the bytes
that `USART_recv` will deliver: the line stored in `buf`, the new `lastc` and
the rest of the input. -/
def read_line (max_len : Nat) (lastc : Char) (input : List Char) :
    Option (List Char × Char × List Char) :=
  match input with
  | [] => none
  | c :: rest =>
    if lastc = '\r' ∧ c = '\n' then
      match rest with
      | [] => none
      | c2 :: rest2 => read_loop max_len c2 rest2
    else read_loop max_len c rest

/-! ## Reads of the field scan -/

/-- The indices `i` at which the scan `while (strlen(dbuf[i]) == 0) i++;` evaluates
`strlen(dbuf[i])`, with `n` entries of the array left from index `i` on. With no
entry left the loop condition is evaluated once more, at the first index outside
the array, where the model stops. -/
def scan_reads (dbuf : List (List Char)) : Nat → Nat → List Nat
  | 0, i => [i]
  | n + 1, i => i :: (if strlen (dbuf_at dbuf i) = 0 then scan_reads dbuf n (i + 1) else [])

/-- The array `dbuf` as filled by the three calls of `slice` in `parse_timestamp`. -/
def parse_dbuf (buf : List Char) : List (List Char) :=
  let s2 := slice buf 0 ':' 2
  let s1 := slice buf s2.2 ':' 2
  let s0 := slice buf s1.2 ':' 2
  [s0.1, s1.1, s2.1]

/-! ## Durations as the specification words them -/

/-- The total number of seconds a duration denotes: hours * 3600 + minutes * 60 +
seconds of its fields read positionally from the right, not reduced. -/
def spec_seconds (value : List Char → Nat) (fields : List (List Char)) : Nat :=
  value (fields.reverse.getD 0 []) + 60 * value (fields.reverse.getD 1 [])
    + 3600 * value (fields.reverse.getD 2 [])

/-- Whether one loop iteration of the tick handler evaluates
`(cts - s->ts) % s->iv` (line 257): the slot is occupied and recurring,
`s->ts > cts` is false and `s->ts < cts` is true (`||` and `&&` evaluate from
left to right and stop early). -/
def evaluates_modulus (cts : Nat) (s : Slot) : Bool :=
  decide (s.flags &&& SLOT_FLAG_SET ≠ 0) && decide (s.flags &&& SLOT_FLAG_INT ≠ 0)
    && !decide (s.ts > cts) && decide (s.ts < cts)

/-! ## Concrete tables used in the examples -/

/-- A table of nine occupied one-shot slots ("turn on all" at tick 100). -/
def full_table : List Slot := List.replicate SLOT_COUNT { flags := 23, ts := 100, iv := 0 }


/-- A table of nine slots whose first slot is `s` and whose other slots are free. -/
def table_with (s : Slot) : List Slot :=
  s :: List.replicate 8 { flags := 0, ts := 0, iv := 0 }

/-- A state with clock `c`, nine free slots and all outputs off. -/
def idle_state (c : Nat) : State :=
  { cts := c, slots := List.replicate SLOT_COUNT { flags := 0, ts := 0, iv := 0 }, PORTD := 0 }

/-- The index of the first slot without `SLOT_FLAG_SET`, the one the allocation
loops of `process_timeout` and `process_interval` stop at (used in the proofs). -/
def first_free : List Slot → Option Nat
  | [] => none
  | s :: rest => if s.flags &&& SLOT_FLAG_SET = 0 then some 0 else (first_free rest).map (· + 1)

/-! ## Single-slot view of the tick handler (used in the proofs) -/

/-- The slot component of one loop iteration; it does not depend on `PORTD`. -/
def slot_after (c : Nat) (s : Slot) : Slot := (ISR_body c s 0).1

/-- Whether one loop iteration reaches the effect code; it does not depend on
`PORTD`. -/
def slot_fires (c : Nat) (s : Slot) : Bool := (ISR_body c s 0).2.2

/-- A slot after `n` runs of the tick handler started with clock value `c`. -/
def slot_run (c : Nat) : Nat → Slot → Slot
  | 0, s => s
  | n + 1, s => slot_run ((c + 1) % 65536) n (slot_after ((c + 1) % 65536) s)

/-! ## Lemmas on the tick handler -/

theorem ISR_body_slot (c : Nat) (s : Slot) (p : Nat) : (ISR_body c s p).1 = slot_after c s := by
  unfold slot_after ISR_body
  dsimp only
  split_ifs <;> rfl

theorem ISR_body_fires (c : Nat) (s : Slot) (p : Nat) : (ISR_body c s p).2.2 = slot_fires c s := by
  unfold slot_fires ISR_body
  dsimp only
  split_ifs <;> rfl

theorem ISR_loop_slots (c : Nat) (l : List Slot) (p : Nat) :
    (ISR_loop c l p).1 = l.map (slot_after c) := by
  induction l generalizing p with
  | nil => rfl
  | cons s rest ih => simp [ISR_loop, ih, ISR_body_slot]

theorem ISR_loop_fires (c : Nat) (l : List Slot) (p : Nat) :
    (ISR_loop c l p).2.2 = l.map (slot_fires c) := by
  induction l generalizing p with
  | nil => rfl
  | cons s rest ih => simp [ISR_loop, ih, ISR_body_fires]

theorem ISR_cts (st : State) : (ISR st).1.cts = (st.cts + 1) % 65536 := rfl

theorem ISR_slots (st : State) :
    (ISR st).1.slots = st.slots.map (slot_after ((st.cts + 1) % 65536)) := by
  simp [ISR, ISR_loop_slots]

theorem ISR_fired (st : State) :
    (ISR st).2 = st.slots.map (slot_fires ((st.cts + 1) % 65536)) := by
  simp [ISR, ISR_loop_fires]

theorem run_ticks_cts (n : Nat) (st : State) (h : st.cts < 65536) : (run_ticks n st).cts = (st.cts + n) % 65536 := by
  induction n generalizing st with
  | zero => simp [run_ticks, Nat.mod_eq_of_lt h]
  | succ n ih =>
    rw [run_ticks, ih _ (by rw [ISR_cts]; exact Nat.mod_lt _ (by norm_num)), ISR_cts]
    omega

theorem run_ticks_slots (n : Nat) (st : State) :
    (run_ticks n st).slots = st.slots.map (slot_run st.cts n) := by
  induction n generalizing st with
  | zero => simp [run_ticks, slot_run]
  | succ n ih =>
    rw [run_ticks, ih, ISR_slots, ISR_cts, List.map_map]
    rfl

theorem slot_run_mod (c n : Nat) (s : Slot) : slot_run (c % 65536) n s = slot_run c n s := by
  cases n with
  | zero => rfl
  | succ n =>
    have e : (c % 65536 + 1) % 65536 = (c + 1) % 65536 := by omega
    simp only [slot_run, e]

theorem slot_run_add (a b c : Nat) (s : Slot) :
    slot_run c (a + b) s = slot_run ((c + a) % 65536) b (slot_run c a s) := by
  induction a generalizing c s with
  | zero => simp [slot_run, slot_run_mod]
  | succ a ih =>
    have e : a + 1 + b = (a + b) + 1 := by omega
    rw [e, slot_run, slot_run, ih]
    congr 1
    omega

theorem slot_run_succ (k c : Nat) (s : Slot) :
    slot_run c (k + 1) s = slot_after ((c + k + 1) % 65536) (slot_run c k s) := by
  rw [slot_run_add k 1 c s]
  simp only [slot_run]
  congr 1
  omega

theorem fires_at_succ (st : State) (h : st.cts < 65536) (k i : Nat) :
    fires_at st (k + 1) i
      = match st.slots.get? i with
        | some s => slot_fires ((st.cts + k + 1) % 65536) (slot_run st.cts k s)
        | none => false := by
  simp only [fires_at, ISR_fired, run_ticks_slots, run_ticks_cts _ _ h, List.map_map]
  have e : (((st.cts + k) % 65536) + 1) % 65536 = (st.cts + k + 1) % 65536 := by omega
  rw [e]
  cases hg : st.slots.get? i with
  | none =>
    simp [List.getD, List.get?_eq_getElem?] at hg ⊢
    simp [List.getElem?_eq_none hg]
  | some s =>
    simp [List.getD, List.get?_eq_getElem?] at hg ⊢
    simp [hg]

/-! ### Behaviour of a single slot under the tick handler -/

theorem slot_after_free (c : Nat) (s : Slot) (h : s.flags &&& SLOT_FLAG_SET = 0) :
    slot_after c s = s := by
  simp [slot_after, ISR_body, h]

theorem slot_fires_free (c : Nat) (s : Slot) (h : s.flags &&& SLOT_FLAG_SET = 0) :
    slot_fires c s = false := by
  simp [slot_fires, ISR_body, h]

theorem slot_run_free (n c : Nat) (s : Slot) (h : s.flags &&& SLOT_FLAG_SET = 0) :
    slot_run c n s = s := by
  induction n generalizing c with
  | zero => rfl
  | succ n ih => rw [slot_run, slot_after_free _ _ h, ih]

theorem oneshot_after (c : Nat) (s : Slot) (hset : s.flags &&& SLOT_FLAG_SET ≠ 0)
    (hint : s.flags &&& SLOT_FLAG_INT = 0) :
    slot_after c s = if s.ts < c then { s with flags := 0 } else s := by
  simp only [slot_after, ISR_body, hset, hint]
  split_ifs <;> simp_all

theorem oneshot_fires (c : Nat) (s : Slot) (hset : s.flags &&& SLOT_FLAG_SET ≠ 0)
    (hint : s.flags &&& SLOT_FLAG_INT = 0) :
    slot_fires c s = decide (s.ts = c) := by
  simp only [slot_fires, ISR_body, hset, hint]
  split_ifs <;> simp_all

theorem recurring_after (c : Nat) (s : Slot) (hint : s.flags &&& SLOT_FLAG_INT ≠ 0) :
    slot_after c s = s := by
  simp only [slot_after, ISR_body, hint]
  split_ifs <;> rfl

theorem recurring_run (n c : Nat) (s : Slot) (hint : s.flags &&& SLOT_FLAG_INT ≠ 0) :
    slot_run c n s = s := by
  induction n generalizing c with
  | zero => rfl
  | succ n ih => rw [slot_run, recurring_after _ _ hint, ih]

theorem sub16_of_le (a b : Nat) (hb : b ≤ a) (ha : a < 65536) : sub16 a b = a - b := by
  unfold sub16
  omega

theorem recurring_fires (c : Nat) (s : Slot) (hc : c < 65536)
    (hset : s.flags &&& SLOT_FLAG_SET ≠ 0) (hint : s.flags &&& SLOT_FLAG_INT ≠ 0) :
    slot_fires c s = decide (s.ts = c ∨ (s.ts < c ∧ (c - s.ts) % s.iv = 0)) := by
  simp only [slot_fires, ISR_body, hset, hint]
  by_cases h1 : s.ts < c
  · rw [sub16_of_le c s.ts (le_of_lt h1) hc]
    by_cases h2 : (c - s.ts) % s.iv = 0
    · simp [h1, h2, not_lt_of_gt h1, hint]
    · simp [h1, h2, not_lt_of_gt h1, ne_of_lt h1, hint]
  · by_cases h3 : s.ts = c
    · simp [h3, hint]
    · have h4 : s.ts > c := by omega
      simp [h1, h3, h4, hint]

theorem recurring_body (c : Nat) (s : Slot) (portd : Nat) (hc : c < 65536)
    (hset : s.flags &&& SLOT_FLAG_SET ≠ 0) (hint : s.flags &&& SLOT_FLAG_INT ≠ 0) :
    ISR_body c s portd
      = if (s.ts = c ∨ (s.ts < c ∧ (c - s.ts) % s.iv = 0)) then (s, slot_effect s.flags portd, true)
        else (s, portd, false) := by
  simp only [ISR_body, hset, hint]
  by_cases h1 : s.ts < c
  · rw [sub16_of_le c s.ts (le_of_lt h1) hc]
    by_cases h2 : (c - s.ts) % s.iv = 0
    · simp [h1, h2, not_lt_of_gt h1, hint]
    · simp [h1, h2, not_lt_of_gt h1, ne_of_lt h1, hint]
  · by_cases h3 : s.ts = c
    · simp [h3, hint]
    · have h4 : s.ts > c := by omega
      simp [h1, h3, h4, hint]

theorem oneshot_wait (k c : Nat) (s : Slot) (hset : s.flags &&& SLOT_FLAG_SET ≠ 0)
    (hint : s.flags &&& SLOT_FLAG_INT = 0) (h : c + k ≤ s.ts) (hts : s.ts < 65536) :
    slot_run c k s = s := by
  induction k with
  | zero => rfl
  | succ k ih =>
    rw [slot_run_succ, ih (by omega), oneshot_after _ _ hset hint]
    have e : (c + k + 1) % 65536 = c + k + 1 := Nat.mod_eq_of_lt (by omega)
    rw [e, if_neg (by omega)]

/-! ### Slot creation -/

theorem timeout_flags_set (scmd sock : Char) : timeout_flags scmd sock &&& SLOT_FLAG_SET ≠ 0 := by
  unfold timeout_flags scmd_flags sock_flags
  split_ifs <;> decide

theorem timeout_flags_not_int (scmd sock : Char) : timeout_flags scmd sock &&& SLOT_FLAG_INT = 0 := by
  unfold timeout_flags scmd_flags sock_flags
  split_ifs <;> decide

theorem interval_flags_set (scmd sock : Char) :
    interval_flags scmd sock &&& SLOT_FLAG_SET ≠ 0 := by
  unfold interval_flags scmd_flags sock_flags
  split_ifs <;> decide

theorem interval_flags_int (scmd sock : Char) :
    interval_flags scmd sock &&& SLOT_FLAG_INT ≠ 0 := by
  unfold interval_flags scmd_flags sock_flags
  split_ifs <;> decide

theorem timeout_loop_slot (scmd sock : Char) (d c : Nat) (l : List Slot) (i : Nat)
    (l' : List Slot) (j : Nat) (h : timeout_loop scmd sock d c l i = some (l', j)) :
    i ≤ j ∧ ∃ s0 : Slot, l'.get? (j - i)
      = some { flags := timeout_flags scmd sock, ts := (c + d) % 65536, iv := s0.iv } := by
  induction l generalizing i l' j with
  | nil => simp [timeout_loop] at h
  | cons s rest ih =>
    unfold timeout_loop at h
    split_ifs at h with hfree
    · simp only [Option.some.injEq, Prod.mk.injEq] at h
      obtain ⟨h1, h2⟩ := h
      subst h1 h2
      exact ⟨le_refl _, s, by simp⟩
    · cases hr : timeout_loop scmd sock d c rest (i + 1) with
      | none => simp [hr] at h
      | some r =>
        simp only [hr, Option.some.injEq, Prod.mk.injEq] at h
        obtain ⟨h1, h2⟩ := h
        obtain ⟨hle, s0, hs0⟩ := ih (i + 1) r.1 r.2 hr
        subst h1 h2
        refine ⟨by omega, s0, ?_⟩
        have e : r.2 - i = (r.2 - (i + 1)) + 1 := by omega
        rw [e]
        simpa using hs0

theorem process_timeout_slot (scmd sock : Char) (d : Nat) (st st' : State) (i : Nat)
    (h : process_timeout scmd sock d st = some (st', i)) :
    st'.cts = st.cts ∧ ∃ s0 : Slot, st'.slots.get? i
      = some { flags := timeout_flags scmd sock, ts := (st.cts + d) % 65536, iv := s0.iv } := by
  unfold process_timeout at h
  cases hr : timeout_loop scmd sock d st.cts st.slots 0 with
  | none => simp [hr] at h
  | some r =>
    simp only [hr, Option.some.injEq, Prod.mk.injEq] at h
    obtain ⟨h1, h2⟩ := h
    obtain ⟨_, s0, hs0⟩ := timeout_loop_slot scmd sock d st.cts st.slots 0 r.1 r.2 hr
    subst h1 h2
    exact ⟨rfl, s0, by simpa using hs0⟩

theorem interval_loop_slot (scmd sock : Char) (p : Nat) (sspan : Option Nat) (c : Nat)
    (l : List Slot) (i : Nat) (l' : List Slot) (j : Nat)
    (h : interval_loop scmd sock p sspan c l i = some (l', j)) :
    i ≤ j ∧ l'.get? (j - i)
      = some { flags := interval_flags scmd sock,
               ts := (c + sspan.getD p) % 65536, iv := p } := by
  induction l generalizing i l' j with
  | nil => simp [interval_loop] at h
  | cons s rest ih =>
    unfold interval_loop at h
    split_ifs at h with hfree
    · simp only [Option.some.injEq, Prod.mk.injEq] at h
      obtain ⟨h1, h2⟩ := h
      subst h1 h2
      refine ⟨le_refl _, ?_⟩
      cases sspan <;> simp
    · cases hr : interval_loop scmd sock p sspan c rest (i + 1) with
      | none => simp [hr] at h
      | some r =>
        simp only [hr, Option.some.injEq, Prod.mk.injEq] at h
        obtain ⟨h1, h2⟩ := h
        obtain ⟨hle, hs0⟩ := ih (i + 1) r.1 r.2 hr
        subst h1 h2
        refine ⟨by omega, ?_⟩
        have e : r.2 - i = (r.2 - (i + 1)) + 1 := by omega
        rw [e]
        simpa using hs0

theorem process_interval_slot (scmd sock : Char) (p : Nat) (sspan : Option Nat)
    (st st' : State) (i : Nat)
    (h : process_interval scmd sock p sspan st = some (st', i)) :
    st'.cts = st.cts ∧ st'.slots.get? i
      = some { flags := interval_flags scmd sock,
               ts := (st.cts + sspan.getD p) % 65536, iv := p } := by
  unfold process_interval at h
  cases hr : interval_loop scmd sock p sspan st.cts st.slots 0 with
  | none => simp [hr] at h
  | some r =>
    simp only [hr, Option.some.injEq, Prod.mk.injEq] at h
    obtain ⟨h1, h2⟩ := h
    obtain ⟨_, hs0⟩ := interval_loop_slot scmd sock p sspan st.cts st.slots 0 r.1 r.2 hr
    subst h1 h2
    exact ⟨rfl, by simpa using hs0⟩

theorem oneshot_retired (c d : Nat) (s : Slot) (hset : s.flags &&& SLOT_FLAG_SET ≠ 0)
    (hint : s.flags &&& SLOT_FLAG_INT = 0) (h : c + d = s.ts) (hts : s.ts < 65535) :
    slot_run c (d + 1) s = { s with flags := 0 } := by
  rw [slot_run_succ, oneshot_wait d c s hset hint (by omega) (by omega),
    oneshot_after _ _ hset hint]
  have e : (c + d + 1) % 65536 = c + d + 1 := Nat.mod_eq_of_lt (by omega)
  rw [e, if_pos (by omega)]

theorem occupied_run (st : State) (n i : Nat) (s : Slot) (h : st.slots.get? i = some s) :
    occupied (run_ticks n st) i = decide ((slot_run st.cts n s).flags &&& SLOT_FLAG_SET ≠ 0) := by
  simp only [occupied, run_ticks_slots]
  simp [List.get?_eq_getElem?] at h ⊢
  simp [h]

/-! ### Bits of the output effect -/

theorem tb_mod256 (x i : Nat) : (x % 256).testBit i = (decide (i < 8) && x.testBit i) := by
  have : (256 : Nat) = 2 ^ 8 := by norm_num
  rw [this, Nat.testBit_mod_two_pow]

theorem tb_not16 (m i : Nat) : (not16 m).testBit i = (decide (i < 16) != m.testBit i) := by
  unfold not16
  have : (65535 : Nat) = 2 ^ 16 - 1 := by norm_num
  rw [Nat.testBit_xor, this, Nat.testBit_two_pow_sub_one]

theorem tb_MASK_L (i : Nat) : MASK_L.testBit i = (i == 2 || i == 5) := by
  by_cases h : i < 8
  · interval_cases i <;> decide
  · have : MASK_L.testBit i = false := Nat.testBit_lt_two_pow (lt_of_lt_of_le (by decide : MASK_L < 2 ^ 8) (Nat.pow_le_pow_right (by norm_num) (by omega)))
    rw [this]
    have h2 : i ≠ 2 := by omega
    have h5 : i ≠ 5 := by omega
    simp [h2, h5]

theorem tb_MASK_R (i : Nat) : MASK_R.testBit i = (i == 3 || i == 6) := by
  by_cases h : i < 8
  · interval_cases i <;> decide
  · have : MASK_R.testBit i = false := Nat.testBit_lt_two_pow (lt_of_lt_of_le (by decide : MASK_R < 2 ^ 8) (Nat.pow_le_pow_right (by norm_num) (by omega)))
    rw [this]
    have h2 : i ≠ 3 := by omega
    have h5 : i ≠ 6 := by omega
    simp [h2, h5]

theorem tb_byte (p i : Nat) (hp : p < 256) (hi : ¬ i < 8) : p.testBit i = false :=
  Nat.testBit_lt_two_pow (lt_of_lt_of_le hp (by
    have : (256 : Nat) = 2 ^ 8 := by norm_num
    rw [this]; exact Nat.pow_le_pow_right (by norm_num) (by omega)))

theorem slot_effect_bit (flags portd i : Nat) (hp : portd < 256) :
    (slot_effect flags portd).testBit i
      = spec_pin_after (decide (flags &&& SLOT_FLAG_TOGGLE ≠ 0)) (decide (flags &&& SLOT_FLAG_ON ≠ 0))
          (spec_targeted (decide (flags &&& SLOT_FLAG_L ≠ 0)) (decide (flags &&& SLOT_FLAG_R ≠ 0)) i)
          (portd.testBit i) := by
  unfold slot_effect spec_pin_after spec_targeted
  simp only [PORT_L1, PORT_L2, PORT_R1, PORT_R2, PORTD2, PORTD3, PORTD5, PORTD6]
  by_cases hi : i < 8
  · have hi16 : i < 16 := by omega
    by_cases hL : flags &&& SLOT_FLAG_L = 0 <;> by_cases hR : flags &&& SLOT_FLAG_R = 0 <;>
    by_cases hT : flags &&& SLOT_FLAG_TOGGLE = 0 <;> by_cases hO : flags &&& SLOT_FLAG_ON = 0 <;>
    simp only [hL, hR, hT, hO, tb_mod256, tb_not16, tb_MASK_L, tb_MASK_R, hi, hi16,
      Nat.testBit_xor, Nat.testBit_or, Nat.testBit_and, ne_eq, not_true_eq_false,
      not_false_eq_true, if_true, if_false, Nat.zero_testBit, decide_True, decide_False] <;>
    interval_cases i <;> cases portd.testBit _ <;> rfl
  · have hb := tb_byte portd i hp hi
    have h2 : i ≠ 2 := by omega
    have h3 : i ≠ 3 := by omega
    have h5 : i ≠ 5 := by omega
    have h6 : i ≠ 6 := by omega
    by_cases hL : flags &&& SLOT_FLAG_L = 0 <;> by_cases hR : flags &&& SLOT_FLAG_R = 0 <;>
    by_cases hT : flags &&& SLOT_FLAG_TOGGLE = 0 <;> by_cases hO : flags &&& SLOT_FLAG_ON = 0 <;>
    simp [hL, hR, hT, hO, tb_mod256, tb_not16, tb_MASK_L, tb_MASK_R, hi, hb, h2, h3, h5, h6,
      Nat.testBit_xor, Nat.testBit_or, Nat.testBit_and]

theorem process_action_bit (cmd sock : Char) (portd i : Nat) (hp : portd < 256) :
    (process_action cmd sock portd).testBit i
      = spec_pin_after (decide (cmd = CMD_TOGGLE)) (decide (cmd = CMD_ON))
          (spec_targeted (decide (sock = SOCK_ALL ∨ sock = SOCK_LEFT))
            (decide (sock = SOCK_ALL ∨ sock = SOCK_RIGHT)) i)
          (portd.testBit i) := by
  unfold process_action spec_pin_after spec_targeted
  simp only [PORT_L1, PORT_L2, PORT_R1, PORT_R2, PORTD2, PORTD3, PORTD5, PORTD6]
  have hne : ¬ CMD_ON = CMD_TOGGLE := by decide
  have hne2 : ¬ CMD_TOGGLE = CMD_ON := by decide
  have hcases : (cmd = CMD_ON ∧ ¬ cmd = CMD_TOGGLE) ∨ (¬ cmd = CMD_ON ∧ cmd = CMD_TOGGLE)
      ∨ (¬ cmd = CMD_ON ∧ ¬ cmd = CMD_TOGGLE) := by
    by_cases hO : cmd = CMD_ON
    · exact Or.inl ⟨hO, fun hT => hne (hO.symm.trans hT)⟩
    · by_cases hT : cmd = CMD_TOGGLE
      · exact Or.inr (Or.inl ⟨hO, hT⟩)
      · exact Or.inr (Or.inr ⟨hO, hT⟩)
  by_cases hi : i < 8
  · have hi16 : i < 16 := by omega
    rcases hcases with ⟨hO, hT⟩ | ⟨hO, hT⟩ | ⟨hO, hT⟩ <;>
    by_cases hL : (sock = SOCK_ALL ∨ sock = SOCK_LEFT) <;>
    by_cases hR : (sock = SOCK_ALL ∨ sock = SOCK_RIGHT) <;>
    simp only [hL, hR, hT, hO, hne, hne2, tb_mod256, tb_not16, tb_MASK_L, tb_MASK_R, hi, hi16,
      Nat.testBit_xor, Nat.testBit_or, Nat.testBit_and, ne_eq, not_true_eq_false,
      not_false_eq_true, if_true, if_false, Nat.zero_testBit, decide_True, decide_False] <;>
    interval_cases i <;> cases portd.testBit _ <;> rfl
  · have hb := tb_byte portd i hp hi
    have h2 : i ≠ 2 := by omega
    have h3 : i ≠ 3 := by omega
    have h5 : i ≠ 5 := by omega
    have h6 : i ≠ 6 := by omega
    rcases hcases with ⟨hO, hT⟩ | ⟨hO, hT⟩ | ⟨hO, hT⟩ <;>
    by_cases hL : (sock = SOCK_ALL ∨ sock = SOCK_LEFT) <;>
    by_cases hR : (sock = SOCK_ALL ∨ sock = SOCK_RIGHT) <;>
    simp [hL, hR, hT, hO, hne, hne2, tb_mod256, tb_not16, tb_MASK_L, tb_MASK_R, hi, hb, h2, h3, h5, h6,
      Nat.testBit_xor, Nat.testBit_or, Nat.testBit_and]

/-! ### Duration parser -/

theorem NUL_ne_colon : NUL ≠ ':' := by decide

theorem slice_loop_drop (stop : Char) (n : Nat) (p : List Char) :
    (slice_loop stop n p).2 = p.drop (slice_loop stop n p).1.length := by
  induction n generalizing p with
  | zero => simp [slice_loop]
  | succ n ih =>
    unfold slice_loop
    split_ifs with h
    · cases p with
      | nil => simp [cur, NUL] at h
      | cons c cs => simpa using ih cs
    · simp

theorem slice_loop_len (stop : Char) (n : Nat) (p : List Char) :
    (slice_loop stop n p).1.length ≤ n := by
  induction n generalizing p with
  | zero => simp [slice_loop]
  | succ n ih =>
    unfold slice_loop
    split_ifs with h
    · simpa using ih p.tail
    · simp

theorem slice_next (buf : List Char) (start : Nat) (h : start + 3 < 65536) :
    (slice buf start ':' 2).1 = (next_field (buf.drop start)).1
      ∧ buf.drop (slice buf start ':' 2).2 = (next_field (buf.drop start)).2
      ∧ (slice buf start ':' 2).2 ≤ start + 3 := by
  have hl := slice_loop_len ':' 2 (buf.drop start)
  have hd := slice_loop_drop ':' 2 (buf.drop start)
  simp only [slice, next_field]
  refine ⟨trivial, ?_, ?_⟩
  · split_ifs with hc
    · rw [Nat.mod_eq_of_lt (by omega)]
      rw [hd] at hc ⊢
      rw [List.drop_drop] at hc ⊢
      rw [List.tail_drop]
    · rw [Nat.mod_eq_of_lt (by omega)]
      rw [hd, List.drop_drop, Nat.add_zero]
  · split_ifs <;> omega

theorem parse_timestamp_eq (buf : List Char) :
    parse_timestamp buf
      = timestamp_of_dbuf [(next_field (next_field (next_field buf).2).2).1,
          (next_field (next_field buf).2).1, (next_field buf).1] := by
  obtain ⟨a1, a2, a3⟩ := slice_next buf 0 (by norm_num)
  obtain ⟨b1, b2, b3⟩ := slice_next buf (slice buf 0 ':' 2).2 (by omega)
  obtain ⟨c1, c2, c3⟩ := slice_next buf (slice buf (slice buf 0 ':' 2).2 ':' 2).2 (by omega)
  rw [List.drop_zero] at a1 a2
  rw [a2] at b1 b2
  rw [b2] at c1
  simp only [parse_timestamp]
  rw [a1, b1, c1]

theorem next_field_colon (f rest : List Char) (hf : short_field f) :
    next_field (f ++ ':' :: rest) = (f, rest) := by
  obtain ⟨hlen, hc⟩ := hf
  match f, hlen, hc with
  | [], _, _ => simp [next_field, slice_loop, cur]
  | [a], _, hc =>
    have ha := hc a (by simp)
    simp [next_field, slice_loop, cur, ha.1, ha.2]
  | [a, b], _, hc =>
    have ha := hc a (by simp)
    have hb := hc b (by simp)
    simp [next_field, slice_loop, cur, ha.1, ha.2, hb.1, hb.2]
  | _ :: _ :: _ :: _, hlen, _ => simp at hlen

theorem next_field_end (f : List Char) (hf : short_field f) :
    next_field f = (f, []) := by
  obtain ⟨hlen, hc⟩ := hf
  match f, hlen, hc with
  | [], _, _ => simp [next_field, slice_loop, cur, NUL_ne_colon]
  | [a], _, hc =>
    have ha := hc a (by simp)
    simp [next_field, slice_loop, cur, ha.1, ha.2, NUL_ne_colon]
  | [a, b], _, hc =>
    have ha := hc a (by simp)
    have hb := hc b (by simp)
    simp [next_field, slice_loop, cur, ha.1, ha.2, hb.1, hb.2, NUL_ne_colon]
  | _ :: _ :: _ :: _, hlen, _ => simp at hlen

theorem next_field_long (a b c : Char) (rest : List Char) (ha : field_char a)
    (hb : field_char b) (hc : c ≠ ':') :
    next_field (a :: b :: c :: rest) = ([a, b], c :: rest) := by
  simp [next_field, slice_loop, cur, ha.1, ha.2, hb.1, hb.2, hc]

theorem digit_iff (c : Char) : ('0' ≤ c ∧ c ≤ '9') ↔ c.isDigit = true := by
  simp [Char.isDigit, Char.le_def, UInt32.le_def]

theorem digit_field_char (c : Char) (h : c.isDigit = true) : field_char c := by
  unfold field_char
  constructor
  · rintro rfl
    revert h; decide
  · rintro rfl
    revert h; decide

theorem strlen_le (f : List Char) : strlen f ≤ f.length := by
  induction f with
  | nil => simp [strlen]
  | cons c cs ih =>
    unfold strlen
    split_ifs
    · omega
    · have := Nat.mod_le (strlen cs + 1) 65536
      simp only [List.length_cons]
      omega

theorem strlen_short (f : List Char) (hf : short_field f) : strlen f = 0 ↔ f = [] := by
  obtain ⟨hlen, hc⟩ := hf
  cases f with
  | nil => simp [strlen]
  | cons c cs =>
    have h1 := (hc c (by simp)).1
    have h2 := strlen_le cs
    simp only [List.length_cons] at hlen
    simp only [strlen, h1, if_false]
    constructor
    · intro h; omega
    · intro h; simp at h


theorem foldl_digit_congr (l : List Char) (a b : Nat) (h : a % 65536 = b % 65536) :
    (l.foldl (fun acc c => 10 * acc + (c.toNat - '0'.toNat)) a) % 65536
      = (l.foldl (fun acc c => 10 * acc + (c.toNat - '0'.toNat)) b) % 65536 := by
  induction l generalizing a b with
  | nil => simpa using h
  | cons c cs ih =>
    simp only [List.foldl_cons]
    apply ih
    omega

theorem atoi_loop_eq (f : List Char) (o : Nat) (ho : o < 65536) (hf : ∀ c ∈ f, c ≠ NUL) :
    atoi_loop f o
      = ((f.filter Char.isDigit).foldl (fun acc c => 10 * acc + (c.toNat - '0'.toNat)) o)
          % 65536 := by
  induction f generalizing o with
  | nil => simp [atoi_loop, Nat.mod_eq_of_lt ho]
  | cons c cs ih =>
    have hc : c ≠ NUL := hf c (by simp)
    have hcs : ∀ x ∈ cs, x ≠ NUL := fun x hx => hf x (by simp [hx])
    unfold atoi_loop
    rw [if_neg hc]
    by_cases hd : c.isDigit = true
    · rw [if_pos ((digit_iff c).2 hd), ih _ (Nat.mod_lt _ (by norm_num)) hcs]
      simp only [List.filter_cons, hd, if_true, List.foldl_cons]
      apply foldl_digit_congr
      omega
    · rw [if_neg (fun h => hd ((digit_iff c).1 h)), ih o ho hcs]
      simp [List.filter_cons, hd]

theorem atoi_eq (f : List Char) (hf : ∀ c ∈ f, c ≠ NUL) :
    atoi f = spec_field_value f % 65536 :=
  atoi_loop_eq f 0 (by norm_num) hf

theorem timestamp_of_short (d0 d1 d2 : List Char) (h0 : short_field d0) (h1 : short_field d1)
    (h2 : short_field d2) :
    timestamp_of_dbuf [d0, d1, d2]
      = if d0 ≠ [] then
          some (((atoi d0 + (atoi d1 * 60) % 65536) % 65536 + (atoi d2 * 3600) % 65536) % 65536)
        else if d1 ≠ [] then some ((atoi d1 + (atoi d2 * 60) % 65536) % 65536)
        else if d2 ≠ [] then some (atoi d2)
        else none := by
  have e0 := strlen_short d0 h0
  have e1 := strlen_short d1 h1
  have e2 := strlen_short d2 h2
  by_cases c0 : d0 = []
  · by_cases c1 : d1 = []
    · by_cases c2 : d2 = []
      · simp [timestamp_of_dbuf, scan_dbuf, dbuf_at, c0, c1, c2, strlen]
      · have := mt e2.1 c2
        simp [timestamp_of_dbuf, scan_dbuf, dbuf_at, c0, c1, c2, strlen, this]
    · have := mt e1.1 c1
      simp [timestamp_of_dbuf, scan_dbuf, dbuf_at, c0, c1, strlen, this]
  · have := mt e0.1 c0
    simp [timestamp_of_dbuf, scan_dbuf, dbuf_at, c0, strlen, this]

theorem short_nil : short_field [] := ⟨by simp, by simp⟩

theorem parse_one (f1 : List Char) (h1 : short_field f1) :
    parse_timestamp (join_fields [f1]) = timestamp_of_dbuf [[], [], f1] := by
  rw [parse_timestamp_eq]
  simp only [join_fields]
  rw [next_field_end f1 h1]
  simp only [next_field_end [] short_nil]

theorem parse_two (f1 f2 : List Char) (h1 : short_field f1) (h2 : short_field f2) :
    parse_timestamp (join_fields [f1, f2]) = timestamp_of_dbuf [[], f2, f1] := by
  rw [parse_timestamp_eq]
  simp only [join_fields]
  rw [next_field_colon f1 f2 h1]
  simp only [next_field_end f2 h2, next_field_end [] short_nil]

theorem parse_three (f1 f2 f3 : List Char) (h1 : short_field f1) (h2 : short_field f2)
    (h3 : short_field f3) :
    parse_timestamp (join_fields [f1, f2, f3]) = timestamp_of_dbuf [f3, f2, f1] := by
  rw [parse_timestamp_eq]
  simp only [join_fields]
  rw [next_field_colon f1 _ h1]
  simp only [next_field_colon f2 _ h2, next_field_end f3 h3]

theorem parse_more (f1 f2 f3 extra : List Char) (h1 : short_field f1) (h2 : short_field f2)
    (h3 : short_field f3) :
    parse_timestamp (join_fields [f1, f2, f3] ++ ':' :: extra) = timestamp_of_dbuf [f3, f2, f1] := by
  rw [parse_timestamp_eq]
  simp only [join_fields, List.append_assoc, List.cons_append]
  rw [next_field_colon f1 _ h1]
  simp only [next_field_colon f2 _ h2, next_field_colon f3 _ h3]

theorem digit_short (f : List Char) (h : digit_field f) : short_field f :=
  ⟨h.2.1, fun c hc => digit_field_char c (h.2.2 c hc)⟩

theorem digit_value (f : List Char) (h : digit_field f) : spec_field_value f = spec_decimal f := by
  unfold spec_field_value
  rw [List.filter_eq_self.2 h.2.2]

theorem digit_ne_nil (f : List Char) (h : digit_field f) : f ≠ [] := by
  intro e
  have := h.1
  simp [e] at this

theorem atoi_short (f : List Char) (h : short_field f) : atoi f = spec_field_value f % 65536 :=
  atoi_eq f (fun c hc => (h.2 c hc).1)

theorem spec_ticks_one (v : List Char → Nat) (f1 : List Char) :
    spec_ticks v [f1] = (v f1 + 60 * v [] + 3600 * v []) % 65536 := by
  simp [spec_ticks]

theorem spec_ticks_two (v : List Char → Nat) (f1 f2 : List Char) :
    spec_ticks v [f1, f2] = (v f2 + 60 * v f1 + 3600 * v []) % 65536 := by
  simp [spec_ticks]

theorem spec_ticks_three (v : List Char → Nat) (f1 f2 f3 : List Char) :
    spec_ticks v [f1, f2, f3] = (v f3 + 60 * v f2 + 3600 * v f1) % 65536 := by
  simp [spec_ticks]

theorem spec_decimal_nil : spec_decimal [] = 0 := rfl

theorem spec_field_value_nil : spec_field_value [] = 0 := rfl

theorem dte_one (f1 : List Char) (h : f1 ≠ []) : drop_trailing_empty [f1] = [f1] := by
  cases f1 with
  | nil => exact absurd rfl h
  | cons c cs => simp [drop_trailing_empty, List.rdropWhile]

theorem dte_two (f1 f2 : List Char) :
    drop_trailing_empty [f1, f2] = if f2 ≠ [] then [f1, f2] else drop_trailing_empty [f1] := by
  cases f2 with
  | nil => simp [drop_trailing_empty, List.rdropWhile]
  | cons c cs => simp [drop_trailing_empty, List.rdropWhile]

theorem dte_three (f1 f2 f3 : List Char) :
    drop_trailing_empty [f1, f2, f3]
      = if f3 ≠ [] then [f1, f2, f3] else drop_trailing_empty [f1, f2] := by
  cases f3 with
  | nil => simp [drop_trailing_empty, List.rdropWhile]
  | cons c cs => simp [drop_trailing_empty, List.rdropWhile]

/-! ## Claims on the scheduler -/

/-- C1 (as amended). A one-shot slot created by `process_timeout` at tick `T`
with a duration `d ≥ 1` such that the clock does not wrap up to tick `T+d+1`
(`T + d < 65535`) is fired by the tick handler in its `d`-th run (tick `T+d`),
in no other run, and is unoccupied after the run for tick `T+d+1`. -/
theorem C1_oneshot_fires_once (st st' : State) (scmd sock : Char) (d i : Nat)
    (hd : 1 ≤ d) (hw : st.cts + d < 65535)
    (hc : process_timeout scmd sock d st = some (st', i)) :
    fires_at st' d i = true
      ∧ (∀ n, n ≠ d → fires_at st' n i = false)
      ∧ occupied (run_ticks (d + 1) st') i = false := by
  obtain ⟨hcts, s0, hs⟩ := process_timeout_slot scmd sock d st st' i hc
  have hmod : (st.cts + d) % 65536 = st.cts + d := Nat.mod_eq_of_lt (by omega)
  rw [hmod] at hs
  generalize hsdef : ({ flags := timeout_flags scmd sock, ts := st.cts + d, iv := s0.iv } : Slot)
    = s at hs
  have hset : s.flags &&& SLOT_FLAG_SET ≠ 0 := by
    rw [← hsdef]; exact timeout_flags_set scmd sock
  have hint : s.flags &&& SLOT_FLAG_INT = 0 := by
    rw [← hsdef]; exact timeout_flags_not_int scmd sock
  have hts : s.ts = st'.cts + d := by rw [← hsdef, hcts]
  have hT : st'.cts < 65536 := by omega
  have hret := oneshot_retired st'.cts d s hset hint hts.symm (by omega)
  refine ⟨?_, ?_, ?_⟩
  · obtain ⟨k, rfl⟩ : ∃ k, d = k + 1 := ⟨d - 1, by omega⟩
    rw [fires_at_succ st' hT k i, hs]
    simp only
    rw [oneshot_wait k st'.cts s hset hint (by omega) (by omega), oneshot_fires _ _ hset hint]
    have e : (st'.cts + k + 1) % 65536 = st'.cts + k + 1 := Nat.mod_eq_of_lt (by omega)
    rw [e]
    simp [hts]; omega
  · intro n hn
    cases n with
    | zero => rfl
    | succ k =>
      rw [fires_at_succ st' hT k i, hs]
      simp only
      by_cases hk : k ≤ d
      · rw [oneshot_wait k st'.cts s hset hint (by omega) (by omega),
          oneshot_fires _ _ hset hint]
        have e : (st'.cts + k + 1) % 65536 = st'.cts + k + 1 := Nat.mod_eq_of_lt (by omega)
        rw [e]
        simp [hts]; omega
      · obtain ⟨m, rfl⟩ : ∃ m, k = (d + 1) + m := ⟨k - (d + 1), by omega⟩
        rw [slot_run_add, hret, slot_run_free _ _ _ (by simp)]
        exact slot_fires_free _ _ (by simp)
  · rw [occupied_run st' (d + 1) i s hs, hret]
    simp

/-- Witness for C1: `t`, `a`, `1`, `10` entered at tick 0 on an empty table. -/
theorem C1_oneshot_fires_once_witness :
    process_timeout CMD_ON SOCK_ALL 10 (idle_state 0)
        = some ({ cts := 0, slots := table_with ⟨23, 10, 0⟩, PORTD := 0 }, 0)
      ∧ fires_at { cts := 0, slots := table_with ⟨23, 10, 0⟩, PORTD := 0 } 10 0 = true
      ∧ (∀ n, n ≠ 10 →
          fires_at { cts := 0, slots := table_with ⟨23, 10, 0⟩, PORTD := 0 } n 0 = false)
      ∧ occupied (run_ticks (10 + 1) { cts := 0, slots := table_with ⟨23, 10, 0⟩, PORTD := 0 }) 0
          = false :=
  ⟨by decide,
   C1_oneshot_fires_once (idle_state 0) _ CMD_ON SOCK_ALL 10 0 (by decide) (by decide)
     (by decide)⟩

/-- C1 as stated fails at three inputs.
(1) Wrap of the trigger: created at tick 65530 with duration 10, the slot gets
trigger 4; it is retired by the very next run (tick 65531) and is not fired in
the 10th run (tick 4).
(2) Duration 0 at tick 0: the trigger is the tick of creation; the next run
(tick 1) retires the slot without firing it.
(3) Trigger 65535 (tick 65525, duration 10): the slot fires in the 10th run but
is still occupied after the 11th run (tick 0), since 65535 is not below 0. -/
theorem C1_counterexample :
    (process_timeout CMD_ON SOCK_ALL 10 (idle_state 65530)
        = some ({ cts := 65530, slots := table_with ⟨23, 4, 0⟩, PORTD := 0 }, 0)
      ∧ fires_at { cts := 65530, slots := table_with ⟨23, 4, 0⟩, PORTD := 0 } 10 0 = false
      ∧ occupied (run_ticks 1 { cts := 65530, slots := table_with ⟨23, 4, 0⟩, PORTD := 0 }) 0
          = false)
    ∧ (process_timeout CMD_ON SOCK_ALL 0 (idle_state 0)
        = some ({ cts := 0, slots := table_with ⟨23, 0, 0⟩, PORTD := 0 }, 0)
      ∧ fires_at { cts := 0, slots := table_with ⟨23, 0, 0⟩, PORTD := 0 } 1 0 = false
      ∧ occupied (run_ticks 1 { cts := 0, slots := table_with ⟨23, 0, 0⟩, PORTD := 0 }) 0
          = false)
    ∧ (process_timeout CMD_ON SOCK_ALL 10 (idle_state 65525)
        = some ({ cts := 65525, slots := table_with ⟨23, 65535, 0⟩, PORTD := 0 }, 0)
      ∧ fires_at { cts := 65525, slots := table_with ⟨23, 65535, 0⟩, PORTD := 0 } 10 0 = true
      ∧ occupied (run_ticks 11 { cts := 65525, slots := table_with ⟨23, 65535, 0⟩, PORTD := 0 }) 0
          = true) := by
  decide

/-- C2 (as amended). A recurring slot created by `process_interval` at tick `T`
with interval `p ≥ 1` and start offset `s` (`s = p` when the start answer is
blank) whose trigger does not wrap (`T + s ≤ 65535`): for every later tick `n`
with `T < n ≤ 65535` the tick handler fires the slot at tick `n` (its
`(n - T)`-th run) if and only if `n = T + s + k * p` for some `k`. -/
theorem C2_recurring_fire_ticks (st st' : State) (scmd sock : Char) (p : Nat)
    (sspan : Option Nat) (i n : Nat)
    (hp : 1 ≤ p) (hs : st.cts + sspan.getD p ≤ 65535)
    (hc : process_interval scmd sock p sspan st = some (st', i))
    (hn1 : st.cts < n) (hn2 : n ≤ 65535) :
    fires_at st' (n - st.cts) i = true ↔ ∃ k, n = st.cts + sspan.getD p + k * p := by
  obtain ⟨hcts, hs'⟩ := process_interval_slot scmd sock p sspan st st' i hc
  have hmod : (st.cts + sspan.getD p) % 65536 = st.cts + sspan.getD p :=
    Nat.mod_eq_of_lt (by omega)
  rw [hmod] at hs'
  obtain ⟨m, hm⟩ : ∃ m, n - st.cts = m + 1 := ⟨n - st.cts - 1, by omega⟩
  have hT : st'.cts < 65536 := by omega
  rw [hm, fires_at_succ st' hT m i, hs']
  simp only
  rw [recurring_run _ _ _ (interval_flags_int scmd sock)]
  have e : (st'.cts + m + 1) % 65536 = n := by
    rw [Nat.mod_eq_of_lt (by omega)]; omega
  rw [e, recurring_fires n _ (by omega) (interval_flags_set scmd sock)
    (interval_flags_int scmd sock)]
  simp only [decide_eq_true_eq]
  constructor
  · rintro (h | ⟨h1, h2⟩)
    · exact ⟨0, by omega⟩
    · obtain ⟨q, hq⟩ := Nat.dvd_of_mod_eq_zero h2
      refine ⟨q, ?_⟩
      rw [Nat.mul_comm q p, ← hq]
      omega
  · rintro ⟨k, hk⟩
    rcases Nat.eq_zero_or_pos k with h0 | hpos
    · left; subst h0; omega
    · right
      have hkp : 0 < k * p := Nat.mul_pos hpos (by omega)
      refine ⟨by omega, ?_⟩
      have e2 : n - (st.cts + sspan.getD p) = k * p := by omega
      rw [e2]
      exact Nat.mul_mod_left k p

/-- Witness for C2: `i`, `l`, `g`, interval 60, blank start, entered at tick 100;
tick 220 is `100 + 60 + 1 * 60`. -/
theorem C2_recurring_fire_ticks_witness :
    process_interval CMD_TOGGLE SOCK_LEFT 60 none (idle_state 100)
        = some ({ cts := 100, slots := table_with ⟨43, 160, 60⟩, PORTD := 0 }, 0)
      ∧ (fires_at { cts := 100, slots := table_with ⟨43, 160, 60⟩, PORTD := 0 } (220 - 100) 0 = true
          ↔ ∃ k, 220 = 100 + (none : Option Nat).getD 60 + k * 60) :=
  ⟨by decide,
   C2_recurring_fire_ticks (idle_state 100) _ CMD_TOGGLE SOCK_LEFT 60 none 0 220
     (by decide) (by decide) (by decide) (by decide) (by decide)⟩

/-- C2 as stated fails when the trigger wraps: created at tick 65530 with
interval 1 and start offset 10, the slot gets trigger `(65530 + 10) mod 65536 = 4`,
which is already below the clock, so it fires in the very next run (tick 65531),
although 65531 is not of the form `65530 + 10 + k * 1`. -/
theorem C2_counterexample :
    process_interval CMD_ON SOCK_ALL 1 (some 10) (idle_state 65530)
        = some ({ cts := 65530, slots := table_with ⟨31, 4, 1⟩, PORTD := 0 }, 0)
      ∧ fires_at { cts := 65530, slots := table_with ⟨31, 4, 1⟩, PORTD := 0 } (65531 - 65530) 0
          = true
      ∧ ¬ ∃ k, 65531 = 65530 + 10 + k * 1 :=
  ⟨by decide, by decide, by rintro ⟨k, hk⟩; omega⟩

/-- C3 as stated fails: with trigger 65530 and interval 10 the slot fires at tick
65530 (first run from clock 65529) but not in the run that advances the clock
from 3 to 4 after the wrap (the 11th run): there `trigger > cts` holds and the
handler skips the slot. -/
theorem C3_counterexample :
    fires_at { cts := 65529, slots := table_with ⟨27, 65530, 10⟩, PORTD := 0 } 1 0 = true
      ∧ (run_ticks 11 { cts := 65529, slots := table_with ⟨27, 65530, 10⟩, PORTD := 0 }).cts = 4
      ∧ fires_at { cts := 65529, slots := table_with ⟨27, 65530, 10⟩, PORTD := 0 } 11 0 = false
      ∧ ISR_body 4 ⟨27, 65530, 10⟩ 0 = (⟨27, 65530, 10⟩, 0, false) := by
  decide

/-- C3 (as amended). An occupied recurring slot with trigger 65530 and interval
10 is fired by one loop iteration of the tick handler exactly when the advanced
clock `c` (a 16-bit value) equals 65530; in particular not at `c = 4` after the
wrap. The handler compares trigger and clock as plain unsigned numbers. -/
theorem C3_wrap_slot_fires_only_at_trigger (flags c portd : Nat) (hc : c < 65536)
    (hset : flags &&& SLOT_FLAG_SET ≠ 0) (hint : flags &&& SLOT_FLAG_INT ≠ 0) :
    (ISR_body c ⟨flags, 65530, 10⟩ portd).2.2 = true ↔ c = 65530 := by
  rw [ISR_body_fires, recurring_fires c ⟨flags, 65530, 10⟩ hc hset hint]
  simp only [decide_eq_true_eq]
  omega

/-- Witness for C3: the clock value 4 reached after the wrap. -/
theorem C3_wrap_slot_fires_only_at_trigger_witness :
    (ISR_body 4 ⟨27, 65530, 10⟩ 0).2.2 = true ↔ 4 = 65530 :=
  C3_wrap_slot_fires_only_at_trigger 27 4 0 (by decide) (by decide) (by decide)

/-- C4. One loop iteration of the tick handler on an occupied one-shot slot,
with `c` the advanced clock: if `ts < c` the slot becomes unoccupied
(`flags = 0`) and `PORTD` is unchanged, no effect code reached; if `ts = c`
the effect of lines 266-284 is applied for the slot's flags and the slot is
unchanged; if `ts > c` neither the slot nor `PORTD` changes. -/
theorem C4_oneshot_tick (c : Nat) (s : Slot) (portd : Nat)
    (hset : s.flags &&& SLOT_FLAG_SET ≠ 0) (hint : s.flags &&& SLOT_FLAG_INT = 0) :
    (s.ts < c → ISR_body c s portd = ({ s with flags := 0 }, portd, false)
        ∧ (ISR_body c s portd).1.flags &&& SLOT_FLAG_SET = 0)
      ∧ (s.ts = c → ISR_body c s portd = (s, slot_effect s.flags portd, true))
      ∧ (s.ts > c → ISR_body c s portd = (s, portd, false)) := by
  refine ⟨fun h => ?_, fun h => ?_, fun h => ?_⟩
  · have e : ISR_body c s portd = ({ s with flags := 0 }, portd, false) := by
      simp only [ISR_body, hset, hint]
      simp [h, ne_of_lt h]
    rw [e]
    exact ⟨rfl, by simp⟩
  · simp only [ISR_body, hset, hint]
    simp [h]
  · simp only [ISR_body, hset, hint]
    simp [not_lt_of_gt h, ne_of_gt h]

/-- Witness for C4: a one-shot "turn on all" slot with trigger 5 seen at clock 7. -/
theorem C4_oneshot_tick_witness :
    (5 < 7 → ISR_body 7 ⟨23, 5, 0⟩ 0 = ({ (⟨23, 5, 0⟩ : Slot) with flags := 0 }, 0, false)
        ∧ (ISR_body 7 ⟨23, 5, 0⟩ 0).1.flags &&& SLOT_FLAG_SET = 0)
      ∧ (5 = 7 → ISR_body 7 ⟨23, 5, 0⟩ 0 = (⟨23, 5, 0⟩, slot_effect 23 0, true))
      ∧ (5 > 7 → ISR_body 7 ⟨23, 5, 0⟩ 0 = (⟨23, 5, 0⟩, 0, false)) :=
  C4_oneshot_tick 7 ⟨23, 5, 0⟩ 0 (by decide) (by decide)

/-- C5. One loop iteration of the tick handler on an occupied recurring slot
with interval > 0, with `c` the advanced 16-bit clock: the effect code is
reached iff `ts = c`, or `ts < c` and `(c - ts) mod iv = 0`; `PORTD` becomes the
effect of the slot's flags when it fires and is unchanged otherwise; and the
slot (flags, trigger, interval) is left exactly as it was. -/
theorem C5_recurring_tick (c : Nat) (s : Slot) (portd : Nat) (hc : c < 65536)
    (hset : s.flags &&& SLOT_FLAG_SET ≠ 0) (hint : s.flags &&& SLOT_FLAG_INT ≠ 0)
    (hiv : 0 < s.iv) :
    ((ISR_body c s portd).2.2 = true ↔ (s.ts = c ∨ (s.ts < c ∧ (c - s.ts) % s.iv = 0)))
      ∧ (ISR_body c s portd).1 = s
      ∧ (ISR_body c s portd).2.1
          = if (s.ts = c ∨ (s.ts < c ∧ (c - s.ts) % s.iv = 0)) then slot_effect s.flags portd
            else portd := by
  have _ := hiv
  refine ⟨?_, ?_, ?_⟩
  · rw [ISR_body_fires, recurring_fires c s hc hset hint]
    simp only [decide_eq_true_eq]
  · rw [ISR_body_slot, recurring_after c s hint]
  · rw [recurring_body c s portd hc hset hint]
    split_ifs <;> rfl

/-- Witness for C5: trigger 100, interval 60, clock 220 (two periods later). -/
theorem C5_recurring_tick_witness :
    ((ISR_body 220 ⟨27, 100, 60⟩ 0).2.2 = true
        ↔ ((100 : Nat) = 220 ∨ (100 < 220 ∧ (220 - 100) % 60 = 0)))
      ∧ (ISR_body 220 ⟨27, 100, 60⟩ 0).1 = ⟨27, 100, 60⟩
      ∧ (ISR_body 220 ⟨27, 100, 60⟩ 0).2.1
          = if ((100 : Nat) = 220 ∨ (100 < 220 ∧ (220 - 100) % 60 = 0)) then slot_effect 27 0
            else 0 :=
  C5_recurring_tick 220 ⟨27, 100, 60⟩ 0 (by decide) (by decide) (by decide) (by decide)

/-! ## Claims on the output effect -/

/-- C6. For every 8-bit value of `PORTD`, the effect applied when a slot fires
(`slot_effect`) and the one applied by the immediate command (`process_action`)
change the port pin by pin as follows: a pin of a targeted channel is inverted
by Toggle, set by TurnOn and cleared by TurnOff; every other bit keeps its
value. In particular an effect whose target is only Left leaves the Right pins
as they were, and vice versa. -/
theorem C6_effect_frame (portd flags : Nat) (cmd sock : Char) (hp : portd < 256) :
    (∀ i, (slot_effect flags portd).testBit i
        = spec_pin_after (decide (flags &&& SLOT_FLAG_TOGGLE ≠ 0))
            (decide (flags &&& SLOT_FLAG_ON ≠ 0))
            (spec_targeted (decide (flags &&& SLOT_FLAG_L ≠ 0))
              (decide (flags &&& SLOT_FLAG_R ≠ 0)) i)
            (portd.testBit i))
      ∧ (∀ i, (process_action cmd sock portd).testBit i
        = spec_pin_after (decide (cmd = CMD_TOGGLE)) (decide (cmd = CMD_ON))
            (spec_targeted (decide (sock = SOCK_ALL ∨ sock = SOCK_LEFT))
              (decide (sock = SOCK_ALL ∨ sock = SOCK_RIGHT)) i)
            (portd.testBit i))
      ∧ (flags &&& SLOT_FLAG_R = 0 →
          (slot_effect flags portd).testBit PORT_R1 = portd.testBit PORT_R1
            ∧ (slot_effect flags portd).testBit PORT_R2 = portd.testBit PORT_R2)
      ∧ (flags &&& SLOT_FLAG_L = 0 →
          (slot_effect flags portd).testBit PORT_L1 = portd.testBit PORT_L1
            ∧ (slot_effect flags portd).testBit PORT_L2 = portd.testBit PORT_L2)
      ∧ (sock = SOCK_LEFT →
          (process_action cmd sock portd).testBit PORT_R1 = portd.testBit PORT_R1
            ∧ (process_action cmd sock portd).testBit PORT_R2 = portd.testBit PORT_R2)
      ∧ (sock = SOCK_RIGHT →
          (process_action cmd sock portd).testBit PORT_L1 = portd.testBit PORT_L1
            ∧ (process_action cmd sock portd).testBit PORT_L2 = portd.testBit PORT_L2) := by
  refine ⟨fun i => slot_effect_bit flags portd i hp,
    fun i => process_action_bit cmd sock portd i hp, fun h => ?_, fun h => ?_, fun h => ?_,
    fun h => ?_⟩
  · rw [slot_effect_bit flags portd _ hp, slot_effect_bit flags portd _ hp]
    simp [spec_pin_after, spec_targeted, h, PORT_L1, PORT_L2, PORT_R1, PORT_R2, PORTD2, PORTD3,
      PORTD5, PORTD6]
  · rw [slot_effect_bit flags portd _ hp, slot_effect_bit flags portd _ hp]
    simp [spec_pin_after, spec_targeted, h, PORT_L1, PORT_L2, PORT_R1, PORT_R2, PORTD2, PORTD3,
      PORTD5, PORTD6]
  · rw [process_action_bit cmd sock portd _ hp, process_action_bit cmd sock portd _ hp]
    subst h
    have e1 : ¬ (SOCK_LEFT = SOCK_ALL ∨ SOCK_LEFT = SOCK_RIGHT) := by decide
    simp [spec_pin_after, spec_targeted, e1, PORT_L1, PORT_L2, PORT_R1, PORT_R2, PORTD2, PORTD3,
      PORTD5, PORTD6]
  · rw [process_action_bit cmd sock portd _ hp, process_action_bit cmd sock portd _ hp]
    subst h
    have e1 : ¬ (SOCK_RIGHT = SOCK_ALL ∨ SOCK_RIGHT = SOCK_LEFT) := by decide
    simp [spec_pin_after, spec_targeted, e1, PORT_L1, PORT_L2, PORT_R1, PORT_R2, PORTD2, PORTD3,
      PORTD5, PORTD6]

/-- Witness for C6: Left is on (pins 2 and 5 high), a "toggle Left" slot fires and
the command `g` is given for socket `l`. -/
theorem C6_effect_frame_witness :
    (∀ i, (slot_effect 35 36).testBit i
        = spec_pin_after (decide (35 &&& SLOT_FLAG_TOGGLE ≠ 0))
            (decide (35 &&& SLOT_FLAG_ON ≠ 0))
            (spec_targeted (decide (35 &&& SLOT_FLAG_L ≠ 0))
              (decide (35 &&& SLOT_FLAG_R ≠ 0)) i)
            (Nat.testBit 36 i))
      ∧ (∀ i, (process_action CMD_TOGGLE SOCK_LEFT 36).testBit i
        = spec_pin_after (decide (CMD_TOGGLE = CMD_TOGGLE)) (decide (CMD_TOGGLE = CMD_ON))
            (spec_targeted (decide (SOCK_LEFT = SOCK_ALL ∨ SOCK_LEFT = SOCK_LEFT))
              (decide (SOCK_LEFT = SOCK_ALL ∨ SOCK_LEFT = SOCK_RIGHT)) i)
            (Nat.testBit 36 i))
      ∧ (35 &&& SLOT_FLAG_R = 0 →
          (slot_effect 35 36).testBit PORT_R1 = Nat.testBit 36 PORT_R1
            ∧ (slot_effect 35 36).testBit PORT_R2 = Nat.testBit 36 PORT_R2)
      ∧ (35 &&& SLOT_FLAG_L = 0 →
          (slot_effect 35 36).testBit PORT_L1 = Nat.testBit 36 PORT_L1
            ∧ (slot_effect 35 36).testBit PORT_L2 = Nat.testBit 36 PORT_L2)
      ∧ (SOCK_LEFT = SOCK_LEFT →
          (process_action CMD_TOGGLE SOCK_LEFT 36).testBit PORT_R1 = Nat.testBit 36 PORT_R1
            ∧ (process_action CMD_TOGGLE SOCK_LEFT 36).testBit PORT_R2 = Nat.testBit 36 PORT_R2)
      ∧ (SOCK_LEFT = SOCK_RIGHT →
          (process_action CMD_TOGGLE SOCK_LEFT 36).testBit PORT_L1 = Nat.testBit 36 PORT_L1
            ∧ (process_action CMD_TOGGLE SOCK_LEFT 36).testBit PORT_L2 = Nat.testBit 36 PORT_L2) :=
  C6_effect_frame 36 35 CMD_TOGGLE SOCK_LEFT (by decide)

/-! ## Claims on the duration parser -/

/-- C7. For every duration made of 1 to 3 colon-separated fields, each of 1 or 2
decimal digits, `parse_timestamp` succeeds and returns seconds + 60 * minutes +
3600 * hours read positionally from the right (fields missing on the left are
0), reduced modulo 65536; in particular "30" gives 30, "1:30" gives 90 and
"01:02:03" gives 3723. -/
theorem C7_parse_digit_fields (fs : List (List Char)) (hn : 1 ≤ fs.length) (hm : fs.length ≤ 3)
    (hf : ∀ f ∈ fs, digit_field f) :
    parse_timestamp (join_fields fs) = some (spec_ticks spec_decimal fs)
      ∧ parse_timestamp "30".toList = some 30
      ∧ parse_timestamp "1:30".toList = some 90
      ∧ parse_timestamp "01:02:03".toList = some 3723 := by
  refine ⟨?_, by decide, by decide, by decide⟩
  match fs, hn, hm, hf with
  | [f1], _, _, hf =>
    have d1 := hf f1 (by simp)
    have s1 := digit_short f1 d1
    rw [parse_one f1 s1, timestamp_of_short _ _ _ short_nil short_nil s1]
    simp only [ne_eq, not_true_eq_false, if_false, digit_ne_nil f1 d1, not_false_eq_true, if_true]
    rw [atoi_short f1 s1, digit_value f1 d1, spec_ticks_one, spec_decimal_nil]
    simp
  | [f1, f2], _, _, hf =>
    have d1 := hf f1 (by simp)
    have d2 := hf f2 (by simp)
    have s1 := digit_short f1 d1
    have s2 := digit_short f2 d2
    rw [parse_two f1 f2 s1 s2, timestamp_of_short _ _ _ short_nil s2 s1]
    simp only [ne_eq, not_true_eq_false, if_false, digit_ne_nil f2 d2, not_false_eq_true, if_true]
    rw [atoi_short f1 s1, digit_value f1 d1, atoi_short f2 s2, digit_value f2 d2,
      spec_ticks_two, spec_decimal_nil]
    congr 1
    omega
  | [f1, f2, f3], _, _, hf =>
    have d1 := hf f1 (by simp)
    have d2 := hf f2 (by simp)
    have d3 := hf f3 (by simp)
    have s1 := digit_short f1 d1
    have s2 := digit_short f2 d2
    have s3 := digit_short f3 d3
    rw [parse_three f1 f2 f3 s1 s2 s3, timestamp_of_short _ _ _ s3 s2 s1]
    simp only [ne_eq, digit_ne_nil f3 d3, not_false_eq_true, if_true]
    rw [atoi_short f1 s1, digit_value f1 d1, atoi_short f2 s2, digit_value f2 d2,
      atoi_short f3 s3, digit_value f3 d3, spec_ticks_three]
    congr 1
    omega
  | [], hn, _, _ => simp at hn
  | _ :: _ :: _ :: _ :: _, _, hm, _ => simp at hm


/-- Witness for C7: the two fields "1" and "30". -/
theorem C7_parse_digit_fields_witness :
    parse_timestamp (join_fields ["1".toList, "30".toList])
        = some (spec_ticks spec_decimal ["1".toList, "30".toList])
      ∧ parse_timestamp "30".toList = some 30
      ∧ parse_timestamp "1:30".toList = some 90
      ∧ parse_timestamp "01:02:03".toList = some 3723 :=
  C7_parse_digit_fields ["1".toList, "30".toList] (by decide) (by decide) (by
    intro f hf
    simp only [List.mem_cons, List.mem_singleton, List.not_mem_nil, or_false] at hf
    rcases hf with rfl | rfl <;> (unfold digit_field; decide))

/-- C8 as stated fails: "1:2:3:4" has four fields and `parse_timestamp` succeeds
on it with 3 + 2 * 60 + 1 * 3600 = 3723; the fourth field is never looked at. -/
theorem C8_counterexample :
    parse_timestamp "1:2:3:4".toList = some 3723 ∧ parse_timestamp "1:2:3:4".toList ≠ none := by
  decide

/-- C8 (as amended). A string with more than 3 fields is not rejected: when the
first three fields have at most 2 characters each, everything from the third
colon on is ignored, the result is that of the first three fields alone, and
the call succeeds as soon as one of these three fields is not empty. -/
theorem C8_extra_fields_ignored (f1 f2 f3 extra : List Char) (h1 : short_field f1)
    (h2 : short_field f2) (h3 : short_field f3) :
    parse_timestamp (join_fields [f1, f2, f3] ++ ':' :: extra)
        = parse_timestamp (join_fields [f1, f2, f3])
      ∧ ((f1 ≠ [] ∨ f2 ≠ [] ∨ f3 ≠ []) →
          (parse_timestamp (join_fields [f1, f2, f3] ++ ':' :: extra)).isSome = true) := by
  rw [parse_more f1 f2 f3 extra h1 h2 h3, parse_three f1 f2 f3 h1 h2 h3,
    timestamp_of_short _ _ _ h3 h2 h1]
  refine ⟨rfl, fun h => ?_⟩
  by_cases c3 : f3 = []
  · by_cases c2 : f2 = []
    · by_cases c1 : f1 = []
      · simp [c1, c2, c3] at h
      · simp [c1, c2, c3]
    · simp [c2, c3]
  · simp [c3]

/-- Witness for C8: the fields "1", "2", "3" followed by ":4". -/
theorem C8_extra_fields_ignored_witness :
    parse_timestamp (join_fields ["1".toList, "2".toList, "3".toList] ++ ':' :: "4".toList)
        = parse_timestamp (join_fields ["1".toList, "2".toList, "3".toList])
      ∧ (("1".toList ≠ [] ∨ "2".toList ≠ [] ∨ "3".toList ≠ []) →
          (parse_timestamp
            (join_fields ["1".toList, "2".toList, "3".toList] ++ ':' :: "4".toList)).isSome
            = true) :=
  C8_extra_fields_ignored "1".toList "2".toList "3".toList "4".toList
    (by unfold short_field field_char; decide) (by unfold short_field field_char; decide)
    (by unfold short_field field_char; decide)

/-- C9 as stated fails: the single field "123" is not read as "12" (12 ticks);
its third character becomes the next field, so it is read as 12 minutes and
3 seconds, 723 ticks. -/
theorem C9_counterexample :
    parse_timestamp "123".toList = some 723 ∧ parse_timestamp "12".toList = some 12 := by
  decide

/-- C9 (as amended). A field longer than 2 characters is not cut down: `slice`
stops after 2 characters and the next call resumes at the third one, so the
parser returns the same result as on the string with a colon inserted after
the second character of the long field (first, second or third field); the
single field "123" is read like "12:3", giving 723 ticks. -/
theorem C9_long_field_splits (f1 f2 : List Char) (a b c : Char) (rest : List Char)
    (h1 : short_field f1) (h2 : short_field f2)
    (ha : field_char a) (hb : field_char b) (hc : c ≠ ':') :
    parse_timestamp (a :: b :: c :: rest) = parse_timestamp (a :: b :: ':' :: c :: rest)
      ∧ parse_timestamp (f1 ++ ':' :: a :: b :: c :: rest)
          = parse_timestamp (f1 ++ ':' :: a :: b :: ':' :: c :: rest)
      ∧ parse_timestamp (f1 ++ ':' :: (f2 ++ ':' :: a :: b :: c :: rest))
          = parse_timestamp (f1 ++ ':' :: (f2 ++ ':' :: a :: b :: ':' :: c :: rest))
      ∧ parse_timestamp "123".toList = some 723 := by
  have hab : short_field [a, b] := ⟨by simp, by
    intro x hx
    simp only [List.mem_cons, List.mem_singleton, List.not_mem_nil, or_false] at hx
    rcases hx with rfl | rfl <;> assumption⟩
  have e1 : next_field (a :: b :: c :: rest) = ([a, b], c :: rest) :=
    next_field_long a b c rest ha hb hc
  have e2 : next_field (a :: b :: ':' :: c :: rest) = ([a, b], c :: rest) :=
    next_field_colon [a, b] (c :: rest) hab
  refine ⟨?_, ?_, ?_, by decide⟩
  · rw [parse_timestamp_eq, parse_timestamp_eq, e1, e2]
  · rw [parse_timestamp_eq, parse_timestamp_eq]
    simp only [next_field_colon f1 _ h1, e1, e2]
  · rw [parse_timestamp_eq, parse_timestamp_eq]
    simp only [next_field_colon f1 _ h1, next_field_colon f2 _ h2, e1, e2]

/-- Witness for C9: the long field "123" alone, after the field "1", and after
the fields "1" and "2". -/
theorem C9_long_field_splits_witness :
    parse_timestamp ('1' :: '2' :: '3' :: []) = parse_timestamp ('1' :: '2' :: ':' :: '3' :: [])
      ∧ parse_timestamp ("1".toList ++ ':' :: '1' :: '2' :: '3' :: [])
          = parse_timestamp ("1".toList ++ ':' :: '1' :: '2' :: ':' :: '3' :: [])
      ∧ parse_timestamp ("1".toList ++ ':' :: ("2".toList ++ ':' :: '1' :: '2' :: '3' :: []))
          = parse_timestamp
              ("1".toList ++ ':' :: ("2".toList ++ ':' :: '1' :: '2' :: ':' :: '3' :: []))
      ∧ parse_timestamp "123".toList = some 723 :=
  C9_long_field_splits "1".toList "2".toList '1' '2' '3' []
    (by unfold short_field field_char; decide) (by unfold short_field field_char; decide)
    (by unfold field_char; decide) (by unfold field_char; decide) (by decide)

/-- C10 as stated fails: "5:" consists of the fields "5" and "" and read
positionally from the right would be 5 minutes (300 ticks), but the parser
returns 5; and on ":" (two empty fields) the parser does not succeed. -/
theorem C10_counterexample :
    parse_timestamp "5:".toList = some 5
      ∧ "5:".toList = join_fields ["5".toList, []]
      ∧ spec_ticks spec_field_value ["5".toList, []] = 300
      ∧ parse_timestamp ":".toList = none := by
  decide

/-- C10 (as amended). For every string of at most 3 colon-separated fields of at
most 2 characters each (any characters but the colon and the terminator) with at
least one non-empty field, `parse_timestamp` succeeds and returns seconds +
60 * minutes + 3600 * hours modulo 65536, read positionally from the right
after the empty fields at the end of the string have been dropped; the value
of a field is the base-10 number of its digit characters, other characters
being skipped, and an empty or digit-free field counts as 0. So "5:" is
5 seconds. -/
theorem C10_lenient_fields (fs : List (List Char)) (hn : 1 ≤ fs.length) (hm : fs.length ≤ 3)
    (hf : ∀ f ∈ fs, short_field f) (hne : ∃ f ∈ fs, f ≠ []) :
    parse_timestamp (join_fields fs)
        = some (spec_ticks spec_field_value (drop_trailing_empty fs))
      ∧ parse_timestamp "5:".toList = some 5 := by
  refine ⟨?_, by decide⟩
  match fs, hn, hm, hf, hne with
  | [f1], _, _, hf, hne =>
    have s1 := hf f1 (by simp)
    have n1 : f1 ≠ [] := by simpa using hne
    rw [parse_one f1 s1, timestamp_of_short _ _ _ short_nil short_nil s1, dte_one f1 n1]
    simp only [ne_eq, not_true_eq_false, if_false, n1, not_false_eq_true, if_true]
    rw [atoi_short f1 s1, spec_ticks_one, spec_field_value_nil]
    simp
  | [f1, f2], _, _, hf, hne =>
    have s1 := hf f1 (by simp)
    have s2 := hf f2 (by simp)
    rw [parse_two f1 f2 s1 s2, timestamp_of_short _ _ _ short_nil s2 s1, dte_two,
      atoi_short f1 s1, atoi_short f2 s2]
    by_cases n2 : f2 = []
    · have n1 : f1 ≠ [] := by simpa [n2] using hne
      simp only [ne_eq, not_true_eq_false, if_false, n1, n2, not_false_eq_true, if_true]
      rw [dte_one f1 n1, spec_ticks_one, spec_field_value_nil]
      simp
    · simp only [ne_eq, not_true_eq_false, if_false, n2, not_false_eq_true, if_true]
      rw [spec_ticks_two, spec_field_value_nil]
      congr 1
      omega
  | [f1, f2, f3], _, _, hf, hne =>
    have s1 := hf f1 (by simp)
    have s2 := hf f2 (by simp)
    have s3 := hf f3 (by simp)
    rw [parse_three f1 f2 f3 s1 s2 s3, timestamp_of_short _ _ _ s3 s2 s1, dte_three, dte_two,
      atoi_short f1 s1, atoi_short f2 s2, atoi_short f3 s3]
    by_cases n3 : f3 = []
    · by_cases n2 : f2 = []
      · have n1 : f1 ≠ [] := by simpa [n2, n3] using hne
        simp only [ne_eq, not_true_eq_false, if_false, n1, n2, n3, not_false_eq_true, if_true]
        rw [dte_one f1 n1, spec_ticks_one, spec_field_value_nil]
        simp
      · simp only [ne_eq, not_true_eq_false, if_false, n2, n3, not_false_eq_true, if_true]
        rw [spec_ticks_two, spec_field_value_nil]
        congr 1
        omega
    · simp only [ne_eq, n3, not_false_eq_true, if_true]
      rw [spec_ticks_three]
      congr 1
      omega
  | [], hn, _, _, _ => simp at hn
  | _ :: _ :: _ :: _ :: _, _, hm, _, _ => simp at hm

/-- Witness for C10: the fields "1a", "" and "b2". -/
theorem C10_lenient_fields_witness :
    parse_timestamp (join_fields ["1a".toList, [], "b2".toList])
        = some (spec_ticks spec_field_value (drop_trailing_empty ["1a".toList, [], "b2".toList]))
      ∧ parse_timestamp "5:".toList = some 5 :=
  C10_lenient_fields ["1a".toList, [], "b2".toList] (by decide) (by decide) (by
    intro f hf
    simp only [List.mem_cons, List.mem_singleton, List.not_mem_nil, or_false] at hf
    rcases hf with rfl | rfl | rfl <;> (unfold short_field field_char; decide))
    ⟨"1a".toList, by simp, by decide⟩

/-! ### Round trip and allocation loops -/

theorem parse_digit_fields_eq (fs : List (List Char)) (hn : 1 ≤ fs.length) (hm : fs.length ≤ 3)
    (hf : ∀ f ∈ fs, digit_field f) :
    parse_timestamp (join_fields fs) = some (spec_seconds spec_decimal fs % 65536) := by
  have e : spec_seconds spec_decimal fs % 65536 = spec_ticks spec_decimal fs := rfl
  rw [e]
  match fs, hn, hm, hf with
  | [f1], _, _, hf =>
    have d1 := hf f1 (by simp)
    have s1 := digit_short f1 d1
    rw [parse_one f1 s1, timestamp_of_short _ _ _ short_nil short_nil s1]
    simp only [ne_eq, not_true_eq_false, if_false, digit_ne_nil f1 d1, not_false_eq_true, if_true]
    rw [atoi_short f1 s1, digit_value f1 d1, spec_ticks_one, spec_decimal_nil]
    simp
  | [f1, f2], _, _, hf =>
    have d1 := hf f1 (by simp)
    have d2 := hf f2 (by simp)
    have s1 := digit_short f1 d1
    have s2 := digit_short f2 d2
    rw [parse_two f1 f2 s1 s2, timestamp_of_short _ _ _ short_nil s2 s1]
    simp only [ne_eq, not_true_eq_false, if_false, digit_ne_nil f2 d2, not_false_eq_true, if_true]
    rw [atoi_short f1 s1, digit_value f1 d1, atoi_short f2 s2, digit_value f2 d2,
      spec_ticks_two, spec_decimal_nil]
    congr 1
    omega
  | [f1, f2, f3], _, _, hf =>
    have d1 := hf f1 (by simp)
    have d2 := hf f2 (by simp)
    have d3 := hf f3 (by simp)
    have s1 := digit_short f1 d1
    have s2 := digit_short f2 d2
    have s3 := digit_short f3 d3
    rw [parse_three f1 f2 f3 s1 s2 s3, timestamp_of_short _ _ _ s3 s2 s1]
    simp only [ne_eq, digit_ne_nil f3 d3, not_false_eq_true, if_true]
    rw [atoi_short f1 s1, digit_value f1 d1, atoi_short f2 s2, digit_value f2 d2,
      atoi_short f3 s3, digit_value f3 d3, spec_ticks_three]
    congr 1
    omega
  | [], hn, _, _ => simp at hn
  | _ :: _ :: _ :: _ :: _, _, hm, _ => simp at hm

theorem hms_sum (t : Nat) (ht : t < 65536) :
    (print_timestamp_hms t).1 * 3600 + (print_timestamp_hms t).2.1 * 60
      + (print_timestamp_hms t).2.2 = t := by
  simp only [print_timestamp_hms]
  omega

theorem first_free_spec (l : List Slot) (i : Nat) (h : first_free l = some i) :
    ∃ s0, l.get? i = some s0 ∧ s0.flags &&& SLOT_FLAG_SET = 0
      ∧ ∀ m, m < i → ∀ s, l.get? m = some s → s.flags &&& SLOT_FLAG_SET ≠ 0 := by
  induction l generalizing i with
  | nil => simp [first_free] at h
  | cons s rest ih =>
    unfold first_free at h
    split_ifs at h with hfree
    · simp only [Option.some.injEq] at h
      subst h
      exact ⟨s, by simp, hfree, fun m hm => absurd hm (Nat.not_lt_zero m)⟩
    · cases hr : first_free rest with
      | none => simp [hr] at h
      | some j =>
        simp only [hr, Option.map_some', Option.some.injEq] at h
        subst h
        obtain ⟨s0, h1, h2, h3⟩ := ih j hr
        refine ⟨s0, by simpa using h1, h2, ?_⟩
        intro m hm t ht
        cases m with
        | zero =>
          simp only [List.get?_cons_zero, Option.some.injEq] at ht
          subst ht
          exact hfree
        | succ m => exact h3 m (by omega) t (by simpa using ht)

theorem first_free_some (l : List Slot) (h : ∃ s ∈ l, s.flags &&& SLOT_FLAG_SET = 0) :
    ∃ i, first_free l = some i := by
  induction l with
  | nil => simp at h
  | cons s rest ih =>
    unfold first_free
    split_ifs with hfree
    · exact ⟨0, rfl⟩
    · obtain ⟨t, ht, hft⟩ := h
      simp only [List.mem_cons] at ht
      rcases ht with rfl | ht
      · exact absurd hft hfree
      · obtain ⟨i, hi⟩ := ih ⟨t, ht, hft⟩
        exact ⟨i + 1, by simp [hi]⟩

theorem first_free_none (l : List Slot) (h : ∀ s ∈ l, s.flags &&& SLOT_FLAG_SET ≠ 0) :
    first_free l = none := by
  induction l with
  | nil => rfl
  | cons s rest ih =>
    unfold first_free
    rw [if_neg (h s (by simp)), ih (fun t ht => h t (by simp [ht]))]
    rfl

theorem first_free_clear_at (l : List Slot) (i : Nat) (hi : i < l.length)
    (h : ∀ s ∈ l, s.flags &&& SLOT_FLAG_SET ≠ 0) :
    first_free (clear_at l i) = some i := by
  induction l generalizing i with
  | nil => simp at hi
  | cons s rest ih =>
    cases i with
    | zero => simp [clear_at, first_free]
    | succ i =>
      simp only [clear_at, first_free]
      rw [if_neg (h s (by simp)),
        ih i (by simpa using hi) (fun t ht => h t (by simp [ht]))]
      rfl

theorem timeout_loop_none (scmd sock : Char) (d c : Nat) (l : List Slot) (k : Nat)
    (h : first_free l = none) : timeout_loop scmd sock d c l k = none := by
  induction l generalizing k with
  | nil => rfl
  | cons s rest ih =>
    unfold first_free at h
    split_ifs at h with hfree
    cases hr : first_free rest with
    | none =>
      unfold timeout_loop
      rw [if_neg hfree, ih (k + 1) hr]
    | some j => simp [hr] at h

theorem timeout_loop_first (scmd sock : Char) (d c : Nat) (l : List Slot) (k i : Nat) (s0 : Slot)
    (h : first_free l = some i) (hs : l.get? i = some s0) :
    timeout_loop scmd sock d c l k
      = some (l.set i { flags := timeout_flags scmd sock, ts := (c + d) % 65536, iv := s0.iv },
          k + i) := by
  induction l generalizing k i with
  | nil => simp [first_free] at h
  | cons s rest ih =>
    unfold first_free at h
    split_ifs at h with hfree
    · simp only [Option.some.injEq] at h
      subst h
      simp only [List.get?_cons_zero, Option.some.injEq] at hs
      subst hs
      simp [timeout_loop, hfree]
    · cases hr : first_free rest with
      | none => simp [hr] at h
      | some j =>
        simp only [hr, Option.map_some', Option.some.injEq] at h
        subst h
        unfold timeout_loop
        rw [if_neg hfree, ih (k + 1) j hr (by simpa using hs)]
        simp only [List.set_cons_succ]
        congr 2
        omega

theorem interval_loop_none (scmd sock : Char) (p : Nat) (sspan : Option Nat) (c : Nat)
    (l : List Slot) (k : Nat) (h : first_free l = none) :
    interval_loop scmd sock p sspan c l k = none := by
  induction l generalizing k with
  | nil => rfl
  | cons s rest ih =>
    unfold first_free at h
    split_ifs at h with hfree
    cases hr : first_free rest with
    | none =>
      unfold interval_loop
      rw [if_neg hfree, ih (k + 1) hr]
    | some j => simp [hr] at h

theorem interval_loop_first (scmd sock : Char) (p : Nat) (sspan : Option Nat) (c : Nat)
    (l : List Slot) (k i : Nat) (h : first_free l = some i) :
    interval_loop scmd sock p sspan c l k
      = some (l.set i { flags := interval_flags scmd sock,
                        ts := (c + sspan.getD p) % 65536, iv := p }, k + i) := by
  induction l generalizing k i with
  | nil => simp [first_free] at h
  | cons s rest ih =>
    unfold first_free at h
    split_ifs at h with hfree
    · simp only [Option.some.injEq] at h
      subst h
      cases sspan <;> simp [interval_loop, hfree]
    · cases hr : first_free rest with
      | none => simp [hr] at h
      | some j =>
        simp only [hr, Option.map_some', Option.some.injEq] at h
        subst h
        unfold interval_loop
        rw [if_neg hfree, ih (k + 1) j hr]
        simp only [List.set_cons_succ]
        congr 2
        omega

theorem slot_digit_eq (i : Nat) (hi : i < 9) : slot_digit i = Nat.digitChar (i + 1) := by
  interval_cases i <;> decide

theorem clear_index_digit (n : Nat) (h1 : 1 ≤ n) (h9 : n ≤ 9) :
    clear_index (Nat.digitChar n) = ((n - 1 : Nat) : Int) ∧ Nat.digitChar n ≠ SOCK_ALL := by
  interval_cases n <;> decide

theorem clear_at_get (l : List Slot) (i : Nat) (s : Slot) (h : l.get? i = some s) :
    (clear_at l i).get? i = some { s with flags := 0 } := by
  induction l generalizing i with
  | nil => simp at h
  | cons t rest ih =>
    cases i with
    | zero =>
      simp only [List.get?_cons_zero, Option.some.injEq] at h
      subst h
      simp [clear_at]
    | succ i => simpa [clear_at] using ih i (by simpa using h)

theorem clear_at_get_ne (l : List Slot) (i j : Nat) (h : j ≠ i) :
    (clear_at l i).get? j = l.get? j := by
  induction l generalizing i j with
  | nil => simp [clear_at]
  | cons t rest ih =>
    cases i with
    | zero =>
      cases j with
      | zero => exact absurd rfl h
      | succ j => simp [clear_at]
    | succ i =>
      cases j with
      | zero => simp [clear_at]
      | succ j => simpa [clear_at] using ih i j (by omega)

theorem clear_at_set (l : List Slot) (i : Nat) (x : Slot) : (clear_at l i).set i x = l.set i x := by
  induction l generalizing i with
  | nil => simp [clear_at]
  | cons t rest ih =>
    cases i with
    | zero => simp [clear_at]
    | succ i => simp [clear_at, ih i]

theorem occupied_of_lt (st : State) (i m : Nat) (s0 : Slot) (hi : st.slots.get? i = some s0)
    (hm : m < i) (h : ∀ s, st.slots.get? m = some s → s.flags &&& SLOT_FLAG_SET ≠ 0) :
    occupied st m = true := by
  have hlen : i < st.slots.length := by
    rw [List.get?_eq_getElem?] at hi
    exact (List.getElem?_eq_some_iff.1 hi).1
  have hmlen : m < st.slots.length := by omega
  have hg : st.slots.get? m = some (st.slots.get ⟨m, hmlen⟩) := List.get?_eq_get hmlen
  simp only [occupied, hg]
  simpa using h _ hg

theorem reply_full_ne_ok (i : Nat) :
    REPLY_TIMEOUT_FULL ≠ reply_ok_slot i ∧ REPLY_INTERVAL_FULL ≠ reply_ok_slot i := by
  constructor
  · intro h
    have := congrArg List.length h
    simp [REPLY_TIMEOUT_FULL, reply_ok_slot] at this
  · intro h
    have := congrArg List.length h
    simp [REPLY_INTERVAL_FULL, reply_ok_slot] at this

theorem timeout_flags_bits (scmd sock : Char)
    (hsock : sock = SOCK_LEFT ∨ sock = SOCK_RIGHT ∨ sock = SOCK_ALL)
    (hscmd : scmd = CMD_ON ∨ scmd = CMD_OFF ∨ scmd = CMD_TOGGLE) :
    timeout_flags scmd sock &&& SLOT_FLAG_SET ≠ 0
      ∧ timeout_flags scmd sock &&& SLOT_FLAG_INT = 0
      ∧ (timeout_flags scmd sock &&& SLOT_FLAG_L ≠ 0 ↔ (sock = SOCK_LEFT ∨ sock = SOCK_ALL))
      ∧ (timeout_flags scmd sock &&& SLOT_FLAG_R ≠ 0 ↔ (sock = SOCK_RIGHT ∨ sock = SOCK_ALL))
      ∧ (timeout_flags scmd sock &&& SLOT_FLAG_TOGGLE ≠ 0 ↔ scmd = CMD_TOGGLE)
      ∧ (timeout_flags scmd sock &&& SLOT_FLAG_ON ≠ 0 ↔ scmd = CMD_ON) := by
  rcases hsock with rfl | rfl | rfl <;> rcases hscmd with rfl | rfl | rfl <;> decide

/-! ### Line reader -/

theorem read_loop_terminator (n : Nat) (term : Char) (rest : List Char)
    (ht : term = '\r' ∨ term = '\n') : read_loop n term rest = some ([], term, rest) := by
  cases n with
  | zero => rfl
  | succ n =>
    unfold read_loop
    rw [if_neg]
    rintro ⟨h1, h2⟩
    rcases ht with h | h
    · exact h1 h
    · exact h2 h

theorem read_loop_cap (n : Nat) (c : Char) (xs tail : List Char)
    (hc : ∀ x ∈ c :: xs, x ≠ '\r' ∧ x ≠ '\n') (hn : n ≤ xs.length) :
    read_loop n c (xs ++ tail)
      = some (((c :: xs).take n).map to_lower, (c :: xs).getD n NUL, xs.drop n ++ tail) := by
  induction n generalizing c xs with
  | zero => simp [read_loop]
  | succ n ih =>
    cases xs with
    | nil => simp at hn
    | cons x xs =>
      have hcc := hc c (by simp)
      have hx : ∀ y ∈ x :: xs, y ≠ '\r' ∧ y ≠ '\n' := fun y hy => hc y (by simp [hy])
      unfold read_loop
      rw [if_pos hcc]
      simp only [List.cons_append]
      rw [ih x xs hx (by simpa using hn)]
      simp

theorem read_loop_line (n : Nat) (c term : Char) (xs rest : List Char)
    (hc : ∀ x ∈ c :: xs, x ≠ '\r' ∧ x ≠ '\n') (ht : term = '\r' ∨ term = '\n')
    (hn : xs.length < n) :
    read_loop n c (xs ++ term :: rest) = some ((c :: xs).map to_lower, term, rest) := by
  induction xs generalizing n c with
  | nil =>
    cases n with
    | zero => simp at hn
    | succ n =>
      have hcc := hc c (by simp)
      unfold read_loop
      rw [if_pos hcc]
      simp only [List.nil_append]
      rw [read_loop_terminator n term rest ht]
      simp
  | cons x xs ih =>
    cases n with
    | zero => simp at hn
    | succ n =>
      have hcc := hc c (by simp)
      have hx : ∀ y ∈ x :: xs, y ≠ '\r' ∧ y ≠ '\n' := fun y hy => hc y (by simp [hy])
      unfold read_loop
      rw [if_pos hcc]
      simp only [List.cons_append]
      rw [ih n x hx (by simpa using hn)]
      simp

theorem read_line_first (lastc c : Char) (input : List Char) (hc : c ≠ '\n') :
    read_line MAX_LINE_LEN lastc (c :: input) = read_loop MAX_LINE_LEN c input := by
  unfold read_line
  simp [hc]

/-! ## Claims on the round trip, the commands and the line reader -/

/-- C11 as stated fails: "18:12:16" denotes 18 * 3600 + 12 * 60 + 16 = 65536
seconds, `parse_timestamp` returns 0 for it, and the hours, minutes and seconds
that `print_timestamp` derives from 0 add up to 0. -/
theorem C11_counterexample :
    parse_timestamp "18:12:16".toList = some 0
      ∧ "18:12:16".toList = join_fields ["18".toList, "12".toList, "16".toList]
      ∧ (print_timestamp_hms 0).1 * 3600 + (print_timestamp_hms 0).2.1 * 60
          + (print_timestamp_hms 0).2.2 = 0
      ∧ spec_seconds spec_decimal ["18".toList, "12".toList, "16".toList] = 65536 := by
  decide

/-- C11 (as amended). For every duration of 1 to 3 colon-separated fields of 1 or
2 digits, `parse_timestamp` succeeds with a tick count `t`, and the hours,
minutes and seconds that `print_timestamp` derives from `t` add up to the total
number of seconds of the duration reduced modulo 65536; they add up to the
total itself whenever the total is below 65536. -/
theorem C11_round_trip_mod (fs : List (List Char)) (hn : 1 ≤ fs.length) (hm : fs.length ≤ 3)
    (hf : ∀ f ∈ fs, digit_field f) :
    ∃ t, parse_timestamp (join_fields fs) = some t
      ∧ (print_timestamp_hms t).1 * 3600 + (print_timestamp_hms t).2.1 * 60
          + (print_timestamp_hms t).2.2 = spec_seconds spec_decimal fs % 65536
      ∧ (spec_seconds spec_decimal fs < 65536 →
          (print_timestamp_hms t).1 * 3600 + (print_timestamp_hms t).2.1 * 60
            + (print_timestamp_hms t).2.2 = spec_seconds spec_decimal fs) := by
  refine ⟨_, parse_digit_fields_eq fs hn hm hf, ?_, ?_⟩
  · exact hms_sum _ (Nat.mod_lt _ (by norm_num))
  · intro h
    rw [hms_sum _ (Nat.mod_lt _ (by norm_num)), Nat.mod_eq_of_lt h]

/-- Witness for C11: the duration "01:02:03". -/
theorem C11_round_trip_mod_witness :
    ∃ t, parse_timestamp (join_fields ["01".toList, "02".toList, "03".toList]) = some t
      ∧ (print_timestamp_hms t).1 * 3600 + (print_timestamp_hms t).2.1 * 60
          + (print_timestamp_hms t).2.2
          = spec_seconds spec_decimal ["01".toList, "02".toList, "03".toList] % 65536
      ∧ (spec_seconds spec_decimal ["01".toList, "02".toList, "03".toList] < 65536 →
          (print_timestamp_hms t).1 * 3600 + (print_timestamp_hms t).2.1 * 60
            + (print_timestamp_hms t).2.2
            = spec_seconds spec_decimal ["01".toList, "02".toList, "03".toList]) :=
  C11_round_trip_mod ["01".toList, "02".toList, "03".toList] (by decide) (by decide) (by
    intro f hf
    simp only [List.mem_cons, List.mem_singleton, List.not_mem_nil, or_false] at hf
    rcases hf with rfl | rfl | rfl <;> (unfold digit_field; decide))

/-- C12. On a table of 9 slots with at least one unoccupied slot, for every clock
value, valid socket and action and every duration `d`, the timeout command
stores the entry in the unoccupied slot of lowest index `i` (all slots before it
are occupied): the table afterwards is the old one with slot `i` replaced by
flags `timeout_flags`, trigger `(cts + d) mod 65536` and the old `iv`; clock and
outputs are unchanged; the reply is "OK ", the digit `i + 1`, CR LF. The flags
have `SLOT_FLAG_SET`, no `SLOT_FLAG_INT`, exactly the chosen channel bits and
the chosen action bit. From an empty table the reply is "OK 1". -/
theorem C12_timeout_first_free (st : State) (scmd sock : Char) (d : Nat)
    (hsock : sock = SOCK_LEFT ∨ sock = SOCK_RIGHT ∨ sock = SOCK_ALL)
    (hscmd : scmd = CMD_ON ∨ scmd = CMD_OFF ∨ scmd = CMD_TOGGLE)
    (hlen : st.slots.length = SLOT_COUNT)
    (hfree : ∃ s ∈ st.slots, s.flags &&& SLOT_FLAG_SET = 0) :
    (∃ i s0, i < SLOT_COUNT ∧ st.slots.get? i = some s0 ∧ s0.flags &&& SLOT_FLAG_SET = 0
        ∧ (∀ m, m < i → occupied st m = true)
        ∧ timeout_command scmd sock d st
            = ({ st with
                  slots := st.slots.set i ⟨timeout_flags scmd sock, (st.cts + d) % 65536, s0.iv⟩ },
               "OK ".toList ++ [Nat.digitChar (i + 1)] ++ "\r\n".toList))
      ∧ (timeout_flags scmd sock &&& SLOT_FLAG_SET ≠ 0
        ∧ timeout_flags scmd sock &&& SLOT_FLAG_INT = 0
        ∧ (timeout_flags scmd sock &&& SLOT_FLAG_L ≠ 0 ↔ (sock = SOCK_LEFT ∨ sock = SOCK_ALL))
        ∧ (timeout_flags scmd sock &&& SLOT_FLAG_R ≠ 0 ↔ (sock = SOCK_RIGHT ∨ sock = SOCK_ALL))
        ∧ (timeout_flags scmd sock &&& SLOT_FLAG_TOGGLE ≠ 0 ↔ scmd = CMD_TOGGLE)
        ∧ (timeout_flags scmd sock &&& SLOT_FLAG_ON ≠ 0 ↔ scmd = CMD_ON))
      ∧ (timeout_command CMD_ON SOCK_ALL 10 (idle_state 0)).2 = "OK 1\r\n".toList := by
  refine ⟨?_, timeout_flags_bits scmd sock hsock hscmd, by decide⟩
  obtain ⟨i, hi⟩ := first_free_some st.slots hfree
  obtain ⟨s0, h1, h2, h3⟩ := first_free_spec st.slots i hi
  have hlt : i < st.slots.length := by
    rw [List.get?_eq_getElem?] at h1
    exact (List.getElem?_eq_some_iff.1 h1).1
  have hi9 : i < 9 := by rw [hlen] at hlt; exact hlt
  refine ⟨i, s0, hi9, h1, h2, fun m hm => occupied_of_lt st i m s0 h1 hm (h3 m hm), ?_⟩
  simp only [timeout_command, process_timeout,
    timeout_loop_first scmd sock d st.cts st.slots 0 i s0 hi h1, Nat.zero_add, reply_ok_slot,
    slot_digit_eq i hi9]


/-- Witness for C12: slot 1 occupied, "toggle Left in 30" entered at tick 5. -/
theorem C12_timeout_first_free_witness :
    (∃ i s0, i < SLOT_COUNT ∧ (table_with ⟨23, 100, 0⟩).get? i = some s0
        ∧ s0.flags &&& SLOT_FLAG_SET = 0
        ∧ (∀ m, m < i → occupied ⟨5, table_with ⟨23, 100, 0⟩, 0⟩ m = true)
        ∧ timeout_command CMD_TOGGLE SOCK_LEFT 30 ⟨5, table_with ⟨23, 100, 0⟩, 0⟩
            = ({ (⟨5, table_with ⟨23, 100, 0⟩, 0⟩ : State) with
                  slots := (table_with ⟨23, 100, 0⟩).set i
                    ⟨timeout_flags CMD_TOGGLE SOCK_LEFT, (5 + 30) % 65536, s0.iv⟩ },
               "OK ".toList ++ [Nat.digitChar (i + 1)] ++ "\r\n".toList))
      ∧ (timeout_flags CMD_TOGGLE SOCK_LEFT &&& SLOT_FLAG_SET ≠ 0
        ∧ timeout_flags CMD_TOGGLE SOCK_LEFT &&& SLOT_FLAG_INT = 0
        ∧ (timeout_flags CMD_TOGGLE SOCK_LEFT &&& SLOT_FLAG_L ≠ 0
            ↔ (SOCK_LEFT = SOCK_LEFT ∨ SOCK_LEFT = SOCK_ALL))
        ∧ (timeout_flags CMD_TOGGLE SOCK_LEFT &&& SLOT_FLAG_R ≠ 0
            ↔ (SOCK_LEFT = SOCK_RIGHT ∨ SOCK_LEFT = SOCK_ALL))
        ∧ (timeout_flags CMD_TOGGLE SOCK_LEFT &&& SLOT_FLAG_TOGGLE ≠ 0 ↔ CMD_TOGGLE = CMD_TOGGLE)
        ∧ (timeout_flags CMD_TOGGLE SOCK_LEFT &&& SLOT_FLAG_ON ≠ 0 ↔ CMD_TOGGLE = CMD_ON))
      ∧ (timeout_command CMD_ON SOCK_ALL 10 (idle_state 0)).2 = "OK 1\r\n".toList :=
  C12_timeout_first_free ⟨5, table_with ⟨23, 100, 0⟩, 0⟩ CMD_TOGGLE SOCK_LEFT 30
    (Or.inl rfl) (Or.inr (Or.inr rfl)) (by decide) ⟨⟨0, 0, 0⟩, by decide, by decide⟩

/-- C13. On a table in which every slot is occupied, the timeout command and the
interval command (with any answers) leave the whole state unchanged and send
the table-full line of the command, which is not an "OK n" reply. -/
theorem C13_full_table_unchanged (st : State) (scmd sock : Char) (d p : Nat)
    (sspan : Option Nat) (hfull : ∀ s ∈ st.slots, s.flags &&& SLOT_FLAG_SET ≠ 0) :
    timeout_command scmd sock d st = (st, REPLY_TIMEOUT_FULL)
      ∧ interval_command scmd sock p sspan st = (st, REPLY_INTERVAL_FULL)
      ∧ (∀ i, REPLY_TIMEOUT_FULL ≠ reply_ok_slot i ∧ REPLY_INTERVAL_FULL ≠ reply_ok_slot i) := by
  have hn := first_free_none st.slots hfull
  refine ⟨?_, ?_, reply_full_ne_ok⟩
  · simp only [timeout_command, process_timeout, timeout_loop_none scmd sock d st.cts st.slots 0 hn]
  · simp only [interval_command, process_interval,
      interval_loop_none scmd sock p sspan st.cts st.slots 0 hn]

/-- Witness for C13: nine occupied one-shot slots. -/
theorem C13_full_table_unchanged_witness :
    timeout_command CMD_ON SOCK_ALL 10 ⟨5, full_table, 0⟩ = (⟨5, full_table, 0⟩, REPLY_TIMEOUT_FULL)
      ∧ interval_command CMD_ON SOCK_ALL 60 none ⟨5, full_table, 0⟩
          = (⟨5, full_table, 0⟩, REPLY_INTERVAL_FULL)
      ∧ (∀ i, REPLY_TIMEOUT_FULL ≠ reply_ok_slot i ∧ REPLY_INTERVAL_FULL ≠ reply_ok_slot i) :=
  C13_full_table_unchanged ⟨5, full_table, 0⟩ CMD_ON SOCK_ALL 10 60 none (by decide)

/-- C14. On a full table of 9 slots and for every slot number `n` in 1..9, the
clear command answered with the digit `n` sets the flags of slot `n` (index
`n - 1`) to 0 and leaves every other slot, the clock and the outputs as they
were; the next timeout command, and likewise the next interval command, stores
its entry in that same slot with reply "OK n", and the table is full again. -/
theorem C14_clear_then_reuse (st : State) (n : Nat) (scmd sock : Char) (d p : Nat)
    (sspan : Option Nat) (hlen : st.slots.length = SLOT_COUNT)
    (hfull : ∀ s ∈ st.slots, s.flags &&& SLOT_FLAG_SET ≠ 0) (hn1 : 1 ≤ n) (hn9 : n ≤ 9) :
    ∃ st1 s, process_clear (Nat.digitChar n) st = some st1
      ∧ st1.cts = st.cts ∧ st1.PORTD = st.PORTD
      ∧ st.slots.get? (n - 1) = some s
      ∧ st1.slots.get? (n - 1) = some { s with flags := 0 }
      ∧ (∀ j, j ≠ n - 1 → st1.slots.get? j = st.slots.get? j)
      ∧ timeout_command scmd sock d st1
          = ({ st with
                slots := st.slots.set (n - 1) ⟨timeout_flags scmd sock, (st.cts + d) % 65536, s.iv⟩ },
             "OK ".toList ++ [Nat.digitChar n] ++ "\r\n".toList)
      ∧ (∀ t ∈ (timeout_command scmd sock d st1).1.slots, t.flags &&& SLOT_FLAG_SET ≠ 0)
      ∧ interval_command scmd sock p sspan st1
          = ({ st with
                slots := st.slots.set (n - 1)
                  ⟨interval_flags scmd sock, (st.cts + sspan.getD p) % 65536, p⟩ },
             "OK ".toList ++ [Nat.digitChar n] ++ "\r\n".toList)
      ∧ (∀ t ∈ (interval_command scmd sock p sspan st1).1.slots,
          t.flags &&& SLOT_FLAG_SET ≠ 0) := by
  obtain ⟨hidx, hne⟩ := clear_index_digit n hn1 hn9
  have hlt : n - 1 < st.slots.length := by rw [hlen]; simp only [SLOT_COUNT]; omega
  have hg : st.slots.get? (n - 1) = some (st.slots.get ⟨n - 1, hlt⟩) := List.get?_eq_get hlt
  have hclear : process_clear (Nat.digitChar n) st
      = some { st with slots := clear_at st.slots (n - 1) } := by
    unfold process_clear
    rw [if_neg hne, hidx, if_pos ⟨by omega, by exact_mod_cast hlt⟩]
    simp
  have hff := first_free_clear_at st.slots (n - 1) hlt hfull
  have hg1 := clear_at_get st.slots (n - 1) _ hg
  have hdig : slot_digit (n - 1) = Nat.digitChar n := by
    rw [slot_digit_eq (n - 1) (by omega)]
    congr 1
    omega
  have ht : timeout_command scmd sock d { st with slots := clear_at st.slots (n - 1) }
      = ({ st with
            slots := st.slots.set (n - 1)
              ⟨timeout_flags scmd sock, (st.cts + d) % 65536, (st.slots.get ⟨n - 1, hlt⟩).iv⟩ },
         "OK ".toList ++ [Nat.digitChar n] ++ "\r\n".toList) := by
    simp only [timeout_command, process_timeout,
      timeout_loop_first scmd sock d st.cts _ 0 (n - 1) _ hff hg1, Nat.zero_add, reply_ok_slot,
      hdig, clear_at_set]
  have hi : interval_command scmd sock p sspan { st with slots := clear_at st.slots (n - 1) }
      = ({ st with
            slots := st.slots.set (n - 1)
              ⟨interval_flags scmd sock, (st.cts + sspan.getD p) % 65536, p⟩ },
         "OK ".toList ++ [Nat.digitChar n] ++ "\r\n".toList) := by
    simp only [interval_command, process_interval,
      interval_loop_first scmd sock p sspan st.cts _ 0 (n - 1) hff, Nat.zero_add, reply_ok_slot,
      hdig, clear_at_set]
  refine ⟨_, _, hclear, rfl, rfl, hg, hg1, fun j hj => clear_at_get_ne st.slots (n - 1) j hj,
    ht, ?_, hi, ?_⟩
  · rw [ht]
    intro t htm
    rcases List.mem_or_eq_of_mem_set htm with h | h
    · exact hfull t h
    · rw [h]; exact timeout_flags_set scmd sock
  · rw [hi]
    intro t htm
    rcases List.mem_or_eq_of_mem_set htm with h | h
    · exact hfull t h
    · rw [h]; exact interval_flags_set scmd sock

/-- Witness for C14: slot 3 of nine occupied slots is cleared and reused. -/
theorem C14_clear_then_reuse_witness :
    ∃ st1 s, process_clear (Nat.digitChar 3) ⟨5, full_table, 0⟩ = some st1
      ∧ st1.cts = 5 ∧ st1.PORTD = 0
      ∧ full_table.get? (3 - 1) = some s
      ∧ st1.slots.get? (3 - 1) = some { s with flags := 0 }
      ∧ (∀ j, j ≠ 3 - 1 → st1.slots.get? j = full_table.get? j)
      ∧ timeout_command CMD_ON SOCK_ALL 10 st1
          = ({ (⟨5, full_table, 0⟩ : State) with
                slots := full_table.set (3 - 1)
                  ⟨timeout_flags CMD_ON SOCK_ALL, (5 + 10) % 65536, s.iv⟩ },
             "OK ".toList ++ [Nat.digitChar 3] ++ "\r\n".toList)
      ∧ (∀ t ∈ (timeout_command CMD_ON SOCK_ALL 10 st1).1.slots, t.flags &&& SLOT_FLAG_SET ≠ 0)
      ∧ interval_command CMD_ON SOCK_ALL 60 none st1
          = ({ (⟨5, full_table, 0⟩ : State) with
                slots := full_table.set (3 - 1)
                  ⟨interval_flags CMD_ON SOCK_ALL, (5 + (none : Option Nat).getD 60) % 65536, 60⟩ },
             "OK ".toList ++ [Nat.digitChar 3] ++ "\r\n".toList)
      ∧ (∀ t ∈ (interval_command CMD_ON SOCK_ALL 60 none st1).1.slots,
          t.flags &&& SLOT_FLAG_SET ≠ 0) :=
  C14_clear_then_reuse ⟨5, full_table, 0⟩ 3 CMD_ON SOCK_ALL 10 60 none (by decide) (by decide)
    (by decide) (by decide)

/-- C15 fails on the code. The interval answer "0" is accepted (one character,
parsed as 0); the interval command entered on the table left by `init` with a
blank start stores an occupied recurring slot with `iv = 0`, reply "OK 1"; the
slot is still there after the next run of the tick handler, and in that run
(clock 1, trigger 0) the handler evaluates `(cts - s->ts) % s->iv` with a zero
divisor. -/
theorem C15_zero_interval_reachable :
    duration_answer "0".toList = some 0
      ∧ interval_command CMD_ON SOCK_LEFT 0 none (idle_state 0)
          = ({ cts := 0, slots := table_with ⟨27, 0, 0⟩, PORTD := 0 }, "OK 1\r\n".toList)
      ∧ (27 &&& SLOT_FLAG_SET ≠ 0 ∧ 27 &&& SLOT_FLAG_INT ≠ 0)
      ∧ occupied (ISR { cts := 0, slots := table_with ⟨27, 0, 0⟩, PORTD := 0 }).1 0 = true
      ∧ evaluates_modulus 1 ⟨27, 0, 0⟩ = true
      ∧ (⟨27, 0, 0⟩ : Slot).iv = 0 := by
  decide

/-- C16 fails on the code. The answer "0" ends the prompt loop of the clear
command (the test is `buf[0] < '0'`, not `< '1'`); the index written is then
`'0' - '1' = -1`, outside the table. The answers "1", "9" and "a" are accepted
and "b" is not. -/
theorem C16_zero_accepted :
    clear_accepts "0".toList = true
      ∧ clear_index '0' = -1
      ∧ process_clear '0' { cts := 5, slots := full_table, PORTD := 0 } = none
      ∧ clear_accepts "1".toList = true ∧ clear_accepts "9".toList = true
      ∧ clear_accepts "a".toList = true ∧ clear_accepts "b".toList = false := by
  decide

/-- C17 fails on the code. For a recurring slot with trigger 100 and interval 60
at clock 110, `print_list` passes `(100 - 110) mod 65536 mod 60 = 6` to
`print_timestamp` ("00:00:06"); the tick handler does not fire the slot at tick
116, nor at any tick 111..159; it fires it at tick 160, 50 ticks later. -/
theorem C17_next_in_wrong :
    next_in ⟨27, 100, 60⟩ 110 = 6
      ∧ (ISR_body (110 + 6) ⟨27, 100, 60⟩ 0).2.2 = false
      ∧ (ISR_body 160 ⟨27, 100, 60⟩ 0).2.2 = true
      ∧ (List.range 49).all (fun k => !(ISR_body (111 + k) ⟨27, 100, 60⟩ 0).2.2) = true
      ∧ String.mk (print_timestamp (next_in ⟨27, 100, 60⟩ 110)) = "00:00:06" := by
  decide

/-- C18 fails on the code. The line reader delivers the answer "C" as "c"; the
state prompt accepts "c"; `process_default` then compares with the upper-case
letter, so `ds` is 0 as for the answer "0": with Left on (pin 2 high), stored
defaults 3 and socket `l` the stored byte becomes 2, Left default off; with both
sockets on and socket `a` it becomes 0. -/
theorem C18_current_clears_default :
    read_line MAX_LINE_LEN NUL "C\r".toList = some (['c'], '\r', [])
      ∧ default_accepts ['c'] = true
      ∧ default_ds 'c' 4 = 0
      ∧ Nat.testBit 4 PIN_L1 = true
      ∧ process_default SOCK_LEFT 'c' 4 3 = 2
      ∧ Nat.testBit (process_default SOCK_LEFT 'c' 4 3) EEPROM_DEFAULT_L = false
      ∧ process_default SOCK_ALL 'c' 12 3 = 0 := by
  decide

/-- C19 as stated fails: of the 20 characters "a".."t" followed by CR, the first
read returns "a".."o", takes "p" (the 16th) out of the input as well, and the
next read returns "qrst": it begins with the 17th character, "p" is in neither
line. -/
theorem C19_counterexample :
    read_line MAX_LINE_LEN NUL "abcdefghijklmnopqrst\r".toList
        = some ("abcdefghijklmno".toList, 'p', "qrst\r".toList)
      ∧ read_line MAX_LINE_LEN 'p' "qrst\r".toList = some ("qrst".toList, '\r', []) := by
  decide

/-- C19 (as amended). For every input that starts with more than 15 characters
other than CR and LF, followed by a terminator: the first `read_line` returns
the first 15 characters lower-cased, has also taken the 16th character out of
the input (it is kept in `lastc` only), and leaves the characters from the 17th
on; the next `read_line` returns the line that begins with the 17th character
(up to the cap or the terminator), lower-cased. -/
theorem C19_truncation_drops_one (cs rest : List Char) (term lastc : Char)
    (hn : 15 < cs.length) (hcs : ∀ c ∈ cs, c ≠ '\r' ∧ c ≠ '\n')
    (hterm : term = '\r' ∨ term = '\n') :
    read_line MAX_LINE_LEN lastc (cs ++ term :: rest)
        = some ((cs.take 15).map to_lower, cs.getD 15 NUL, cs.drop 16 ++ term :: rest)
      ∧ ∃ lastc2 rest2,
          read_line MAX_LINE_LEN (cs.getD 15 NUL) (cs.drop 16 ++ term :: rest)
            = some (((cs.drop 16).take 15).map to_lower, lastc2, rest2) := by
  constructor
  · cases cs with
    | nil => simp at hn
    | cons c xs =>
      have hc1 := hcs c (by simp)
      simp only [List.cons_append]
      rw [read_line_first lastc c _ hc1.2, MAX_LINE_LEN,
        read_loop_cap 15 c xs (term :: rest) hcs (by simp at hn; omega)]
      simp
  · cases hz : cs.drop 16 with
    | nil =>
      simp only [List.nil_append]
      have hl : cs.getD 15 NUL ≠ '\r' := by
        have h15 : 15 < cs.length := hn
        rw [List.getD_eq_getElem cs NUL h15]
        exact (hcs _ (List.getElem_mem _)).1
      refine ⟨term, rest, ?_⟩
      unfold read_line
      simp only [hl, false_and, if_false]
      rw [read_loop_terminator _ term rest hterm]
      simp
    | cons z zs =>
      have hzmem : ∀ y ∈ z :: zs, y ≠ '\r' ∧ y ≠ '\n' := by
        intro y hy
        rw [← hz] at hy
        exact hcs y (List.mem_of_mem_drop hy)
      simp only [List.cons_append]
      rw [read_line_first _ z _ (hzmem z (by simp)).2, MAX_LINE_LEN]
      by_cases hlen : zs.length < 15
      · rw [read_loop_line 15 z term zs rest hzmem hterm hlen]
        refine ⟨term, rest, ?_⟩
        rw [List.take_of_length_le (by simp; omega)]
      · rw [read_loop_cap 15 z zs (term :: rest) hzmem (by omega)]
        exact ⟨_, _, rfl⟩

/-- Witness for C19: the 20 characters "a".."t" followed by CR. -/
theorem C19_truncation_drops_one_witness :
    read_line MAX_LINE_LEN NUL ("abcdefghijklmnopqrst".toList ++ '\r' :: [])
        = some (("abcdefghijklmnopqrst".toList.take 15).map to_lower,
            "abcdefghijklmnopqrst".toList.getD 15 NUL,
            "abcdefghijklmnopqrst".toList.drop 16 ++ '\r' :: [])
      ∧ ∃ lastc2 rest2,
          read_line MAX_LINE_LEN ("abcdefghijklmnopqrst".toList.getD 15 NUL)
              ("abcdefghijklmnopqrst".toList.drop 16 ++ '\r' :: [])
            = some ((("abcdefghijklmnopqrst".toList.drop 16).take 15).map to_lower, lastc2,
                rest2) :=
  C19_truncation_drops_one "abcdefghijklmnopqrst".toList [] '\r' NUL (by decide) (by decide)
    (Or.inl rfl)

/-- C20 fails on the code. The one-character line ":" gives three empty fields;
the scan evaluates `strlen(dbuf[i])` at `i = 0, 1, 2` and then at `i = 3`, the
first index outside the 3-entry array, before `i > 2` is tested. -/
theorem C20_scan_reads_past_array :
    ":".toList.length = 1
      ∧ parse_timestamp ":".toList = timestamp_of_dbuf (parse_dbuf ":".toList)
      ∧ parse_dbuf ":".toList = [[], [], []]
      ∧ scan_reads (parse_dbuf ":".toList) 3 0 = [0, 1, 2, 3]
      ∧ scan_dbuf (parse_dbuf ":".toList) 3 0 = 3 := by
  decide

end BTHeater
